import Mathlib

/-!
Shallow embedding of `src/misc/unicode.cpp` (DOSBox Staging UTF-8 / DOS
code-page transcoder) and verification of the frozen claims about it.

Conventions of the embedding:
* `uint8_t` / `uint16_t` / `uint32_t` values are modelled as `Nat`;
  where the C++ performs a narrowing `static_cast` the model applies an
  explicit `% 256` / `% 65536`.
* `std::string` inputs and outputs are modelled as `List Nat` (byte
  values); `std::vector<uint16_t>` as `List Nat` (code points).
* `std::map` tables that the conversion routines only query are
  modelled as lookup functions returning `Option`; tables that the
  loaders build incrementally are modelled as association lists with
  `std::map`-style insert / update helpers.
* The process-wide mutable tables become an explicit `UnicodeState`
  value threaded through the conversion functions.  The stateful
  `prepare_code_page` (file loading plus memoisation) is abstracted as
  a Boolean oracle `prepare` in that state; its result for a fixed code
  page is stable in the C++ code because of the `already_tried`
  memoisation.
-/

/-- `constexpr uint8_t unknown_character = 0x3f` -/
def unknown_character : Nat := 0x3f

/-- `is_combining_mark` from unicode.cpp: membership in the six inclusive
code-point ranges (note that 0x064b..0x0652 are deliberately excluded). -/
def is_combining_mark (code_point : Nat) : Bool :=
  (0x0300 ≤ code_point && code_point ≤ 0x036f) ||
  (0x0653 ≤ code_point && code_point ≤ 0x065f) ||
  (0x1ab0 ≤ code_point && code_point ≤ 0x1aff) ||
  (0x1dc0 ≤ code_point && code_point ≤ 0x1dff) ||
  (0x20d0 ≤ code_point && code_point ≤ 0x20ff) ||
  (0xfe20 ≤ code_point && code_point ≤ 0xfe2f)

/-- The `Grapheme` class: base code point, combining marks in insertion
order, the same marks kept sorted for comparison, and the two flags.
Field defaults mirror the C++ member initialisers (default-constructed
grapheme: base `' '` = 0x20, no marks, empty, valid). -/
structure Grapheme where
  code_point : Nat := 0x20
  marks : List Nat := []
  marks_sorted : List Nat := []
  is_empty : Bool := true
  is_valid : Bool := true
deriving DecidableEq, Repr

/-- The default-constructed grapheme `Grapheme()`. -/
def Grapheme.empty : Grapheme := {}

/-- `Grapheme::Invalidate`: mark as non-empty and invalid, replace the
base by the unknown-character sentinel, clear both mark lists. -/
def Grapheme.Invalidate (g : Grapheme) : Grapheme :=
  { g with is_empty := false, is_valid := false,
           code_point := unknown_character, marks := [], marks_sorted := [] }

/-- The converting constructor `Grapheme::Grapheme(uint16_t)`: sets the
base and clears `is_empty`; a combining mark as base invalidates. -/
def Grapheme.ofCp (code_point : Nat) : Grapheme :=
  let g : Grapheme := { code_point := code_point, is_empty := false }
  if is_combining_mark code_point then g.Invalidate else g

/-- `Grapheme::IsEmpty`. -/
def Grapheme.IsEmpty (g : Grapheme) : Bool := g.is_empty

/-- `Grapheme::IsValid`. -/
def Grapheme.IsValid (g : Grapheme) : Bool := g.is_valid

/-- `Grapheme::HasMark`. -/
def Grapheme.HasMark (g : Grapheme) : Bool := !g.marks.isEmpty

/-- `Grapheme::GetCodePoint`. -/
def Grapheme.GetCodePoint (g : Grapheme) : Nat := g.code_point

/-- `Grapheme::PushInto`: append the base then the marks (insertion
order) to the output, unless the grapheme is empty or invalid, in which
case nothing at all is appended. -/
def Grapheme.PushInto (g : Grapheme) (str_out : List Nat) : List Nat :=
  if g.is_empty || !g.is_valid then str_out
  else str_out ++ g.code_point :: g.marks

/-- `Grapheme::AddMark`: no-op on an invalid grapheme; invalidate when
the argument is not a combining mark or the grapheme is empty; ignore a
duplicate mark; otherwise append to `marks` and keep `marks_sorted`
sorted (`std::sort` after `push_back`, modelled by `insertionSort`,
which produces the unique sorted permutation). -/
def Grapheme.AddMark (g : Grapheme) (in_code_point : Nat) : Grapheme :=
  if g.is_valid = false then g
  else if is_combining_mark in_code_point = false ∨ g.is_empty = true then
    g.Invalidate
  else if in_code_point ∈ g.marks then g
  else
    { g with marks := g.marks ++ [in_code_point],
             marks_sorted :=
               List.insertionSort (· ≤ ·) (g.marks_sorted ++ [in_code_point]) }

/-- `Grapheme::StripMarks`. -/
def Grapheme.StripMarks (g : Grapheme) : Grapheme :=
  { g with marks := [], marks_sorted := [] }

/-- `Grapheme::operator==`: compares the flags, the base and the sorted
mark list (the insertion-order `marks` list is not compared). -/
def Grapheme.eqOp (g other : Grapheme) : Bool :=
  g.is_empty = other.is_empty && g.is_valid = other.is_valid &&
  g.code_point = other.code_point && g.marks_sorted = other.marks_sorted

/-- Folding `AddMark` over a list of code points. -/
def Grapheme.addMarks (g : Grapheme) (l : List Nat) : Grapheme :=
  l.foldl Grapheme.AddMark g

example : (Grapheme.ofCp 0x41).is_valid = true := by decide
example : (Grapheme.ofCp 0x300).is_valid = false := by decide
example : ((Grapheme.ofCp 0x41).AddMark 0x300).marks = [0x300] := by decide
example :
    Grapheme.eqOp (((Grapheme.ofCp 0x41).AddMark 0x301).AddMark 0x300)
      (((Grapheme.ofCp 0x41).AddMark 0x300).AddMark 0x301) = true := by decide

/-!
Decomposition rules (`decomposition_rules_t = std::map<uint16_t, Grapheme>`),
modelled as an association list with unique-key `std::map` semantics for
lookup (first match).
-/

/-- The decomposition-rule table `decomposition_rules_t`. -/
abbrev DecompRules := List (Nat × Grapheme)

/-- `decomposition_rules.count/at` lookup. -/
def lookupRule (rules : DecompRules) (code_point : Nat) : Option Grapheme :=
  rules.lookup code_point

/-- One iteration of the `Grapheme::Decompose` loop body: replace the
base by the rule's base, then `AddMark` each of the rule's marks in
insertion order. -/
def Grapheme.applyRule (g : Grapheme) (rule : Grapheme) : Grapheme :=
  Grapheme.addMarks { g with code_point := rule.code_point } rule.marks

/-- The `while (decomposition_rules.count(code_point))` loop of
`Grapheme::Decompose`, with explicit fuel; `none` means the fuel ran out
(the C++ loop would still be running). -/
def decomposeGo (rules : DecompRules) : Nat → Grapheme → Option Grapheme
  | fuel, g =>
    match lookupRule rules g.code_point with
    | none => some g
    | some rule =>
      match fuel with
      | 0 => none
      | fuel' + 1 => decomposeGo rules fuel' (g.applyRule rule)

/-- `Grapheme::Decompose` with explicit fuel for the loop.  The early
return on an invalid or empty grapheme is kept. -/
def Grapheme.DecomposeFuel (rules : DecompRules) (fuel : Nat) (g : Grapheme) :
    Option Grapheme :=
  if g.is_valid = false ∨ g.is_empty = true then some g
  else decomposeGo rules fuel g

/-- The `Grapheme::Decompose` loop again, returning the current state
when the fuel runs out. -/
def decomposeGoT (rules : DecompRules) : Nat → Grapheme → Grapheme
  | 0, g => g
  | fuel + 1, g =>
    match lookupRule rules g.code_point with
    | none => g
    | some rule => decomposeGoT rules fuel (g.applyRule rule)

/-- Total version of `Grapheme::Decompose` used inside the conversion
pipeline.  The fuel `2 * rules.length + 2` is enough for the loop to
reach its exit condition whenever the rule table is acyclic (see the
termination development below); on a cyclic table the C++ loop does not
terminate at all, and this model then returns the state reached when
the fuel runs out. -/
def Grapheme.DecomposeTotal (rules : DecompRules) (g : Grapheme) : Grapheme :=
  if g.is_valid = false ∨ g.is_empty = true then g
  else decomposeGoT rules (2 * rules.length + 2) g

/-- The base-chain step of the decomposition table: the rule base
assigned to `code_point` by `Grapheme::Decompose`'s loop body. -/
def ruleStep (rules : DecompRules) (c : Nat) : Option Nat :=
  (lookupRule rules c).map (fun r => r.code_point)

/-- Iterating `ruleStep` `n` times. -/
def iterStep (rules : DecompRules) : Nat → Nat → Option Nat
  | 0, c => some c
  | n + 1, c => (ruleStep rules c).bind (iterStep rules n)

/-- Acyclicity of the decomposition table: no code point reaches itself
by repeatedly following rule bases. -/
def AcyclicRules (rules : DecompRules) : Prop :=
  ∀ c n, 0 < n → iterStep rules n c ≠ some c

/-!
UTF-8 codec (`utf8_to_wide` / `wide_to_utf8`).
-/

/-- A byte in the continuation range `0x80..0xBF`
(`decode_threshold_non_ascii ≤ b < decode_threshold_2_bytes`). -/
def cont_ok (b : Nat) : Bool := 0x80 ≤ b && b < 0xC0

/-- Length of the leading run of continuation bytes; the `advance`
lambda of `utf8_to_wide` skips `min (leadContCount rest) bytes` input
bytes. -/
def leadContCount : List Nat → Nat
  | [] => 0
  | b :: bs => if cont_ok b then leadContCount bs + 1 else 0

/-- One position of the `utf8_to_wide` loop: given the lead byte and
the remaining input, return the decoded code point (before the final
`uint16_t` cast), the number of extra input bytes consumed, and whether
this position decoded without error.  Branch order follows the C++
threshold chain. -/
def utf8_step (byte_1 : Nat) (rest : List Nat) : Nat × Nat × Bool :=
  let byte_2 := rest.getD 0 0
  let byte_3 := rest.getD 1 0
  if 0xFC ≤ byte_1 then (unknown_character, min (leadContCount rest) 5, false)
  else if 0xF8 ≤ byte_1 then (unknown_character, min (leadContCount rest) 4, false)
  else if 0xF0 ≤ byte_1 then (unknown_character, min (leadContCount rest) 3, false)
  else if 0xE0 ≤ byte_1 then
    let cp1 := (byte_1 - 0xE0) % 256
    let cp2 := cp1 * 64 + (if cont_ok byte_2 then byte_2 - 0x80 else 0)
    let cp3 := cp2 * 64 + (if cont_ok byte_2 && cont_ok byte_3 then byte_3 - 0x80 else 0)
    let consumed := (if cont_ok byte_2 then 1 else 0) +
                    (if cont_ok byte_2 && cont_ok byte_3 then 1 else 0)
    (cp3, consumed, cont_ok byte_2 && cont_ok byte_3)
  else if 0xC0 ≤ byte_1 then
    let cp1 := (byte_1 - 0xC0) % 256
    let cp2 := cp1 * 64 + (if cont_ok byte_2 then byte_2 - 0x80 else 0)
    (cp2, (if cont_ok byte_2 then 1 else 0), cont_ok byte_2)
  else if byte_1 < 0x80 then (byte_1, 0, true)
  else (unknown_character, 0, false)

/-- The `utf8_to_wide` loop.  The second argument counts input bytes
still to be skipped because the current position's step consumed them
(the `++i` advances of the C++ loop).  At a lead byte the step function
decodes one position; the pushed value carries the
`static_cast<uint16_t>` as `% 65536`. -/
def utf8_to_wide_go : List Nat → Nat → List Nat × Bool
  | [], _ => ([], true)
  | _ :: rest, skip + 1 => utf8_to_wide_go rest skip
  | b :: rest, 0 =>
    let s := utf8_step b rest
    let r := utf8_to_wide_go rest s.2.1
    (s.1 % 65536 :: r.1, s.2.2 && r.2)

/-- `utf8_to_wide`: returns the decoded code points and the status
flag. -/
def utf8_to_wide (str_in : List Nat) : List Nat × Bool :=
  utf8_to_wide_go str_in 0

/-- `wide_to_utf8`: 1-, 2- or 3-byte encoding per code point; the
bit operations `>> 6`, `& 0x3F`, `| 0xC0` etc. are written as division,
remainder and addition (the OR operands have disjoint bits), and the
`static_cast<uint8_t>` in `push` as `% 256`. -/
def wide_to_utf8 : List Nat → List Nat
  | [] => []
  | cp :: rest =>
    (if cp < 0x80 then [cp % 256]
     else if cp < 0x800 then [(cp / 64 + 0xC0) % 256, (cp % 64 + 0x80) % 256]
     else [(cp / 4096 + 0xE0) % 256, ((cp / 64) % 64 + 0x80) % 256,
           (cp % 64 + 0x80) % 256]) ++ wide_to_utf8 rest

example : utf8_to_wide [0x41, 0x42] = ([0x41, 0x42], true) := by decide
example : utf8_to_wide [0xC4, 0x85] = ([0x105], true) := by decide
example : utf8_to_wide [0xE2, 0x82, 0xAC] = ([0x20AC], true) := by decide
example : utf8_to_wide [0xC3] = ([0xC0], false) := by decide
example : utf8_to_wide [0x85] = ([0x3F], false) := by decide
example : wide_to_utf8 [0x105] = [0xC4, 0x85] := by decide
example : wide_to_utf8 [0x20AC] = [0xE2, 0x82, 0xAC] := by decide

/-!
The process-wide tables used by the conversion routines, as an explicit
state value (see the header comment).
-/

/-- The registry tables consulted by `wide_to_dos` / `dos_to_wide`, plus
the `prepare_code_page` success oracle and `config_duplicates` used by
the code-page resolution helpers.  The per-code-page `std::map`s keyed
by `Grapheme` use `operator<`, which compares only the base and the
sorted mark list; modelling them as arbitrary lookup functions covers
every such map. -/
structure UnicodeState where
  config_duplicates : List (Nat × Nat) := []
  mapping_ascii : Nat → Option Nat := fun _ => none
  decomposition_rules : DecompRules := []
  mappings_normalized_by_codepage : Nat → Option (Grapheme → Option Nat) := fun _ => none
  mappings_decomposed_by_codepage : Nat → Option (Grapheme → Option Nat) := fun _ => none
  aliases_normalized_by_codepage : Nat → Option (Grapheme → Option Nat) := fun _ => none
  aliases_decomposed_by_codepage : Nat → Option (Grapheme → Option Nat) := fun _ => none
  mappings_reverse_by_codepage : Nat → Option (Nat → Option Grapheme) := fun _ => none
  prepare : Nat → Bool := fun _ => false

/-!
`dos_to_wide`.
-/

/-- The fixed screen-code table for bytes 0x00..0x1F. -/
def screen_codes : List Nat :=
  [0x0020, 0x263a, 0x263b, 0x2665,
   0x2666, 0x2663, 0x2660, 0x2022,
   0x25d8, 0x25cb, 0x25d9, 0x2642,
   0x2640, 0x266a, 0x266b, 0x263c,
   0x25ba, 0x25c4, 0x2195, 0x203c,
   0x00b6, 0x00a7, 0x25ac, 0x21a8,
   0x2191, 0x2193, 0x2192, 0x2190,
   0x221f, 0x2194, 0x25b2, 0x25bc]

/-- `constexpr uint16_t codepoint_7f = 0x2302` -/
def codepoint_7f : Nat := 0x2302

/-- The body of the `dos_to_wide` loop for one input byte: bytes at or
above 0x80 go through the reverse code-page mapping (pushing the
unknown-character sentinel when the code page or the byte has no entry,
and whatever `Grapheme::PushInto` appends otherwise, which is nothing
for an empty or invalid stored grapheme); 0x7F becomes 0x2302; bytes
0x20..0x7E pass through; bytes below 0x20 use the screen-code table. -/
def dos_byte_to_wide (st : UnicodeState) (code_page : Nat) (byte : Nat) : List Nat :=
  if 0x80 ≤ byte then
    match st.mappings_reverse_by_codepage code_page with
    | none => [unknown_character]
    | some table =>
      match table byte with
      | none => [unknown_character]
      | some g => g.PushInto []
  else if byte = 0x7f then [codepoint_7f]
  else if 0x20 ≤ byte then [byte]
  else [screen_codes.getD byte 0]

/-- `dos_to_wide`. -/
def dos_to_wide (st : UnicodeState) (code_page : Nat) : List Nat → List Nat
  | [] => []
  | byte :: rest => dos_byte_to_wide st code_page byte ++ dos_to_wide st code_page rest

/-!
`wide_to_dos`.  The four per-code-page lookup pointers are `none`
unless the requested code page is nonzero and present in the registry,
exactly as in the C++ (`if (code_page != 0) { ... find ... }`).  Each
`push_*` helper of the C++ appends exactly one byte when it succeeds;
here each returns `Option Nat` (the byte), and the caller appends it.
-/

/-- The four resolved mapping pointers plus the global tables, i.e. the
environment of one `wide_to_dos` call after the pointer setup. -/
structure ResolveCtx where
  mapping_normalized : Option (Grapheme → Option Nat)
  mapping_decomposed : Option (Grapheme → Option Nat)
  aliases_normalized : Option (Grapheme → Option Nat)
  aliases_decomposed : Option (Grapheme → Option Nat)
  mapping_ascii : Nat → Option Nat
  decomposition_rules : DecompRules

/-- The pointer setup at the top of `wide_to_dos`. -/
def mkResolveCtx (st : UnicodeState) (code_page : Nat) : ResolveCtx where
  mapping_normalized :=
    if code_page ≠ 0 then st.mappings_normalized_by_codepage code_page else none
  mapping_decomposed :=
    if code_page ≠ 0 then st.mappings_decomposed_by_codepage code_page else none
  aliases_normalized :=
    if code_page ≠ 0 then st.aliases_normalized_by_codepage code_page else none
  aliases_decomposed :=
    if code_page ≠ 0 then st.aliases_decomposed_by_codepage code_page else none
  mapping_ascii := st.mapping_ascii
  decomposition_rules := st.decomposition_rules

/-- `push_7bit`: an unmarked grapheme whose base is below 0x80 emits its
base. -/
def push_7bit (g : Grapheme) : Option Nat :=
  if g.HasMark then none
  else if 0x80 ≤ g.GetCodePoint then none
  else some g.GetCodePoint

/-- `push_code_page`: lookup through one of the four per-code-page
mapping pointers (`none` pointer: fail). -/
def push_code_page (mapping : Option (Grapheme → Option Nat)) (g : Grapheme) :
    Option Nat :=
  match mapping with
  | none => none
  | some m => m g

/-- `push_fallback`: an unmarked grapheme looked up in the global
Unicode→ASCII table. -/
def push_fallback (ctx : ResolveCtx) (g : Grapheme) : Option Nat :=
  if g.HasMark then none
  else ctx.mapping_ascii g.GetCodePoint

/-- `push_normalized`: 7-bit shortcut, then the code page's normalized
mapping, then its normalized aliases, then the global ASCII fallback. -/
def push_normalized (ctx : ResolveCtx) (g : Grapheme) : Option Nat :=
  (push_7bit g).orElse fun _ =>
  (push_code_page ctx.mapping_normalized g).orElse fun _ =>
  (push_code_page ctx.aliases_normalized g).orElse fun _ =>
  push_fallback ctx g

/-- `push_decomposed`: decompose a copy of the grapheme, then try the
decomposed mapping and the decomposed aliases. -/
def push_decomposed (ctx : ResolveCtx) (g : Grapheme) : Option Nat :=
  let decomposed := g.DecomposeTotal ctx.decomposition_rules
  (push_code_page ctx.mapping_decomposed decomposed).orElse fun _ =>
  push_code_page ctx.aliases_decomposed decomposed

/-- The full fallback chain for one assembled grapheme, including the
last, desperate attempt (decompose, and if that produced marks, strip
them and retry the normalized path).  Returns `none` when the grapheme
cannot be matched at all (the caller then emits the sentinel). -/
def resolveGrapheme (ctx : ResolveCtx) (g : Grapheme) : Option Nat :=
  (push_normalized ctx g).orElse fun _ =>
  (push_decomposed ctx g).orElse fun _ =>
  let decomposed := g.DecomposeTotal ctx.decomposition_rules
  if decomposed.HasMark then push_normalized ctx decomposed.StripMarks
  else none

/-- The `wide_to_dos` loop after the first code point of a grapheme has
been read: while the next code point is a combining mark it is added to
the current grapheme; otherwise the current grapheme is resolved (one
output byte, the sentinel plus a cleared status when nothing matched)
and a new grapheme is started. -/
def wide_to_dos_go (ctx : ResolveCtx) : List Nat → Grapheme → List Nat × Bool
  | [], g =>
    match resolveGrapheme ctx g with
    | some b => ([b], true)
    | none => ([unknown_character], false)
  | c :: rest, g =>
    if is_combining_mark c then wide_to_dos_go ctx rest (g.AddMark c)
    else
      let r := wide_to_dos_go ctx rest (Grapheme.ofCp c)
      match resolveGrapheme ctx g with
      | some b => (b :: r.1, r.2)
      | none => (unknown_character :: r.1, false)

/-- `wide_to_dos`: returns the output bytes and the status flag. -/
def wide_to_dos (st : UnicodeState) (code_page : Nat) : List Nat → List Nat × Bool
  | [] => ([], true)
  | c :: rest => wide_to_dos_go (mkResolveCtx st code_page) rest (Grapheme.ofCp c)

/-- The number of graphemes `wide_to_dos` assembles from its input: the
first code point starts a grapheme, and each later code point starts
one exactly when it is not a combining mark (combining marks are
absorbed into the current grapheme). -/
def graphemeCountGo : List Nat → Nat
  | [] => 1
  | c :: rest => if is_combining_mark c then graphemeCountGo rest
                 else 1 + graphemeCountGo rest

/-- Grapheme count of a whole code-point sequence. -/
def graphemeCount : List Nat → Nat
  | [] => 0
  | _ :: rest => graphemeCountGo rest

/-!
Code-page resolution helpers and the explicit-code-page facade.
-/

/-- `deduplicate_code_page`. -/
def deduplicate_code_page (st : UnicodeState) (code_page : Nat) : Nat :=
  match st.config_duplicates.lookup code_page with
  | none => code_page
  | some cp => cp

/-- `get_default_code_page`: code page 437, or 0 when preparing it
fails. -/
def get_default_code_page (st : UnicodeState) : Nat :=
  if st.prepare 437 then 437 else 0

/-- `get_custom_code_page`. -/
def get_custom_code_page (st : UnicodeState) (custom_code_page : Nat) : Nat :=
  if custom_code_page = 0 then 0
  else
    let code_page := deduplicate_code_page st custom_code_page
    if st.prepare code_page = false then get_default_code_page st
    else code_page

/-- The explicit-code-page overload `utf8_to_dos(str_in, str_out, code_page)`. -/
def utf8_to_dos (st : UnicodeState) (str_in : List Nat) (code_page : Nat) :
    List Nat × Bool :=
  let cp := get_custom_code_page st code_page
  let r1 := utf8_to_wide str_in
  let r2 := wide_to_dos st cp r1.1
  (r2.1, r1.2 && r2.2)

/-- The explicit-code-page overload `dos_to_utf8(str_in, str_out, code_page)`. -/
def dos_to_utf8 (st : UnicodeState) (str_in : List Nat) (code_page : Nat) :
    List Nat :=
  let cp := get_custom_code_page st code_page
  wide_to_utf8 (dos_to_wide st cp str_in)

example : dos_to_utf8 {} [0x41, 0x20, 0x7A] 437 = [0x41, 0x20, 0x7A] := by decide
example : utf8_to_dos {} [0x41, 0x20, 0x7A] 437 = ([0x41, 0x20, 0x7A], true) := by decide
example : dos_to_utf8 {} [0x01] 437 = [0xE2, 0x98, 0xBA] := by decide
example : dos_to_utf8 {} [0x7F] 437 = [0xE2, 0x8C, 0x82] := by decide

/-!
Configuration-file parsing (`get_tokens`, `get_hex_8bit`,
`get_hex_16bit`, `get_ascii`, `get_code_page`, `get_grapheme`,
`get_line`) and the three top-level importers.  A file is modelled as
`Option (List Str)`: `none` when the file could not be opened or read,
otherwise its lines.
-/

/-- Strings of the parser are lists of characters. -/
abbrev Str := List Char

/-- Whitespace characters recognised by `get_tokens`. -/
def is_space_char (c : Char) : Bool :=
  c = ' ' || c = '\t' || c = '\r' || c = '\n'

/-- The `get_tokens` loop.  `pending` holds the characters of the token
currently being scanned (empty when no token is in progress).  On `'#'`
the loop breaks; a token in progress is then completed with
`line.substr(start_pos)`, i.e. it keeps the `'#'` and everything after
it, exactly as in the C++. -/
def tokens_go (pending : Str) : Str → List Str
  | [] => if pending.isEmpty then [] else [pending]
  | c :: cs =>
    if c = '#' then (if pending.isEmpty then [] else [pending ++ c :: cs])
    else if is_space_char c then
      (if pending.isEmpty then tokens_go [] cs else pending :: tokens_go [] cs)
    else tokens_go (pending ++ [c]) cs

/-- `get_tokens` (the Boolean result `!tokens.empty()` is recovered via
`List.isEmpty` at the call sites). -/
def get_tokens (line : Str) : List Str := tokens_go [] line

/-- `isxdigit`. -/
def is_hex_digit (c : Char) : Bool :=
  ('0' ≤ c && c ≤ '9') || ('a' ≤ c && c ≤ 'f') || ('A' ≤ c && c ≤ 'F')

/-- Value of one hexadecimal digit. -/
def hex_digit_val (c : Char) : Nat :=
  if '0' ≤ c && c ≤ '9' then c.toNat - '0'.toNat
  else if 'a' ≤ c && c ≤ 'f' then c.toNat - 'a'.toNat + 10
  else if 'A' ≤ c && c ≤ 'F' then c.toNat - 'A'.toNat + 10
  else 0

/-- `get_hex_8bit`: exactly `0x` plus two hex digits. -/
def get_hex_8bit : Str → Option Nat
  | ['0', 'x', c2, c3] =>
    if is_hex_digit c2 && is_hex_digit c3 then
      some (hex_digit_val c2 * 16 + hex_digit_val c3)
    else none
  | _ => none

/-- `get_hex_16bit`: exactly `0x` plus four hex digits. -/
def get_hex_16bit : Str → Option Nat
  | ['0', 'x', c2, c3, c4, c5] =>
    if is_hex_digit c2 && is_hex_digit c3 && is_hex_digit c4 && is_hex_digit c5 then
      some (((hex_digit_val c2 * 16 + hex_digit_val c3) * 16 +
             hex_digit_val c4) * 16 + hex_digit_val c5)
    else none
  | _ => none

/-- `get_ascii`: a single character (its byte value), or one of the
`SPC` / `HSH` / `NNN` spellings. -/
def get_ascii : Str → Option Nat
  | [c] => some (c.toNat % 256)
  | ['S', 'P', 'C'] => some 0x20
  | ['H', 'S', 'H'] => some 0x23
  | ['N', 'N', 'N'] => some unknown_character
  | _ => none

/-- `get_code_page`: 1..5 decimal digits, value in 1..65535. -/
def get_code_page (token : Str) : Option Nat :=
  if token.isEmpty || 5 < token.length then none
  else if token.all (fun c => '0' ≤ c && c ≤ '9') then
    let tmp := token.foldl (fun a c => a * 10 + (c.toNat - '0'.toNat)) 0
    if tmp < 1 ∨ 65535 < tmp then none else some tmp
  else none

/-- `get_grapheme`: build a grapheme from tokens 1..3 of a mapping
line (token 0 is the character code).  The grapheme is returned even
when invalid; validity is checked separately by the callers. -/
def get_grapheme (tokens : List Str) : Option Grapheme :=
  match tokens with
  | _ :: t1 :: rest =>
    match get_hex_16bit t1 with
    | none => none
    | some cp =>
      let g := Grapheme.ofCp cp
      match rest with
      | [] => some g
      | t2 :: rest2 =>
        match get_hex_16bit t2 with
        | none => none
        | some cp2 =>
          let g := g.AddMark cp2
          match rest2 with
          | [] => some g
          | t3 :: _ =>
            match get_hex_16bit t3 with
            | none => none
            | some cp3 => some (g.AddMark cp3)
  | _ => none

/-- `end_of_file_marking = 0x1a`. -/
def end_of_file_char : Char := Char.ofNat 0x1a

/-- The lines `get_line` actually delivers: everything before the first
line starting with the 0x1A end-of-file mark, with empty lines
skipped. -/
def effectiveLines (lines : List Str) : List Str :=
  (lines.takeWhile (fun l => l.head? ≠ some end_of_file_char)).filter
    (fun l => !l.isEmpty)

/-- `std::map` `operator[]` followed by assignment: replace the value
if the key is present, otherwise add the entry. -/
def assocSet {α : Type} (m : List (Nat × α)) (k : Nat) (v : α) : List (Nat × α) :=
  match m with
  | [] => [(k, v)]
  | (k', v') :: rest =>
    if k' = k then (k, v) :: rest else (k', v') :: assocSet rest k v

/-- `std::map` `operator[]` followed by a mutation of the stored value:
update in place if present, otherwise insert the default first and
mutate that. -/
def assocModify {α : Type} (m : List (Nat × α)) (k : Nat) (dflt : α) (f : α → α) :
    List (Nat × α) :=
  match m with
  | [] => [(k, f dflt)]
  | (k', v') :: rest =>
    if k' = k then (k', f v') :: rest else (k', v') :: assocModify rest k dflt f

/-- `add_if_not_mapped` (`std::map::try_emplace`): insert only when the
key is not yet present; the Boolean result tells whether it was
added. -/
def add_if_not_mapped {α : Type} (m : List (Nat × α)) (k : Nat) (v : α) :
    List (Nat × α) × Bool :=
  match m with
  | [] => ([(k, v)], true)
  | (k', v') :: rest =>
    if k' = k then ((k', v') :: rest, false)
    else
      let r := add_if_not_mapped rest k v
      ((k', v') :: r.1, r.2)

/-- `ConfigMappingEntry`. -/
structure ConfigMappingEntry where
  valid : Bool := false
  mapping : List (Nat × Grapheme) := []
  extends_code_page : Nat := 0
  extends_dir : Str := []
  extends_file : Str := []
deriving DecidableEq, Repr

/-- The three global tables written by `import_config_main`. -/
structure ConfigTables where
  config_mappings : List (Nat × ConfigMappingEntry) := []
  config_duplicates : List (Nat × Nat) := []
  config_aliases : List (Nat × Nat) := []
deriving DecidableEq, Repr

/-- The local state of the `import_config_main` read-and-parse loop. -/
structure MainState where
  curent_code_page : Nat := 0
  file_empty : Bool := true
  new_config_mappings : List (Nat × ConfigMappingEntry) := []
  new_config_duplicates : List (Nat × Nat) := []
  new_config_aliases : List (Nat × Nat) := []
deriving DecidableEq, Repr

/-- `check_no_code_page` inside the `CODEPAGE` branch of
`import_config_main`: the code page must not already be defined as a
(valid) mapping or as a duplicate. -/
def check_no_code_page (st : MainState) (code_page : Nat) : Bool :=
  !((match st.new_config_mappings.lookup code_page with
     | some entry => entry.valid
     | none => false) ||
    (st.new_config_duplicates.lookup code_page).isSome)

/-- Processing of one non-empty line of `MAIN.TXT` by
`import_config_main`; `none` is the early `return` on a parse error. -/
def main_line (st : MainState) (tokens : List Str) : Option MainState :=
  match tokens.head? with
  | none => some st
  | some t0 =>
    if t0 = "ALIAS".toList then
      if (tokens.length ≠ 3 ∧ tokens.length ≠ 4) ∨
         (tokens.length = 4 ∧ tokens.getD 3 [] ≠ "BIDIRECTIONAL".toList) then none
      else
        match get_hex_16bit (tokens.getD 1 []), get_hex_16bit (tokens.getD 2 []) with
        | some cp1, some cp2 =>
          let aliases := st.new_config_aliases ++ [(cp1, cp2)]
          let aliases := if tokens.length = 4 then aliases ++ [(cp2, cp1)] else aliases
          some { st with new_config_aliases := aliases, curent_code_page := 0 }
        | _, _ => none
    else if t0 = "CODEPAGE".toList then
      if tokens.length = 4 ∧ tokens.getD 2 [] = "DUPLICATES".toList then
        match get_code_page (tokens.getD 1 []), get_code_page (tokens.getD 3 []) with
        | some cp1, some cp2 =>
          if check_no_code_page st cp1 = false then none
          else some { st with
            new_config_duplicates := assocSet st.new_config_duplicates cp1 cp2,
            curent_code_page := 0 }
        | _, _ => none
      else
        if tokens.length ≠ 2 then none
        else
          match get_code_page (tokens.getD 1 []) with
          | none => none
          | some cp =>
            if check_no_code_page st cp = false then none
            else some { st with
              new_config_mappings := assocModify st.new_config_mappings cp {}
                (fun entry => { entry with valid := true }),
              curent_code_page := cp }
    else if t0 = "EXTENDS".toList then
      if st.curent_code_page = 0 then none
      else if tokens.length = 3 ∧ tokens.getD 1 [] = "CODEPAGE".toList then
        match get_code_page (tokens.getD 2 []) with
        | none => none
        | some cp =>
          some { st with
            new_config_mappings := assocModify st.new_config_mappings
              st.curent_code_page {} (fun entry => { entry with extends_code_page := cp }),
            curent_code_page := 0 }
      else if tokens.length = 4 ∧ tokens.getD 1 [] = "FILE".toList then
        some { st with
          new_config_mappings := assocModify st.new_config_mappings
            st.curent_code_page {} (fun entry =>
              { entry with extends_dir := tokens.getD 2 [],
                           extends_file := tokens.getD 3 [] }),
          file_empty := false,
          curent_code_page := 0 }
      else none
    else
      match get_hex_8bit t0 with
      | some character_code =>
        if st.curent_code_page = 0 then none
        else if tokens.length = 1 then
          if 0x80 ≤ character_code then
            some { st with
              new_config_mappings := assocModify st.new_config_mappings
                st.curent_code_page {} (fun entry =>
                  { entry with
                    mapping := (add_if_not_mapped entry.mapping character_code
                                  Grapheme.empty).1 }),
              file_empty := false }
          else some st
        else if tokens.length ≤ 4 then
          if 0x80 ≤ character_code then
            match get_grapheme tokens with
            | none => none
            | some grapheme =>
              if grapheme.IsValid = false then none
              else
                some { st with
                  new_config_mappings := assocModify st.new_config_mappings
                    st.curent_code_page {} (fun entry =>
                      { entry with
                        mapping := (add_if_not_mapped entry.mapping character_code
                                      grapheme).1 }),
                  file_empty := false }
          else some st
        else none
      | none => none

/-- The whole read-and-parse loop of `import_config_main` over the
effective lines (empty token lists are skipped). -/
def main_loop (st : MainState) : List Str → Option MainState
  | [] => some st
  | line :: rest =>
    let tokens := get_tokens line
    if tokens.isEmpty then main_loop st rest
    else
      match main_line st tokens with
      | none => none
      | some st' => main_loop st' rest

/-- `import_config_main`: on an unreadable file, any parse error, or a
file with no meaningful mapping, the global tables are left untouched;
only after the whole file parsed successfully are all three replaced. -/
def import_config_main (file : Option (List Str)) (globals : ConfigTables) :
    ConfigTables :=
  match file with
  | none => globals
  | some lines =>
    match main_loop {} (effectiveLines lines) with
    | none => globals
    | some st =>
      if st.file_empty then globals
      else
        { config_mappings := st.new_config_mappings,
          config_duplicates := st.new_config_duplicates,
          config_aliases := st.new_config_aliases }

/-- Processing of the mark tokens (tokens 2..) of one
`DECOMPOSITION.TXT` line: each must be a 16-bit hex number and a
supported combining mark, and is added to the rule stored for
`code_point_1` via `AddMark`. -/
def decomposition_marks (rules : DecompRules) (code_point_1 : Nat) :
    List Str → Option DecompRules
  | [] => some rules
  | t :: ts =>
    match get_hex_16bit t with
    | none => none
    | some code_point_2 =>
      if is_combining_mark code_point_2 = false then none
      else
        decomposition_marks
          (assocModify rules code_point_1 {} (fun g => g.AddMark code_point_2))
          code_point_1 ts

/-- Processing of one non-empty `DECOMPOSITION.TXT` line: at least
three tokens, the first two 16-bit hex numbers.  The rule for the
source code point is assigned unconditionally (`new_rules[cp1] = cp2`
overwrites any earlier rule for the same source), then the marks are
added. -/
def decomposition_line (rules : DecompRules) (tokens : List Str) :
    Option DecompRules :=
  if tokens.length < 3 then none
  else
    match get_hex_16bit (tokens.getD 0 []), get_hex_16bit (tokens.getD 1 []) with
    | some code_point_1, some code_point_2 =>
      decomposition_marks (assocSet rules code_point_1 (Grapheme.ofCp code_point_2))
        code_point_1 (tokens.drop 2)
    | _, _ => none

/-- The read-and-parse loop of `import_decomposition`. -/
def decomposition_loop (rules : DecompRules) : List Str → Option DecompRules
  | [] => some rules
  | line :: rest =>
    let tokens := get_tokens line
    if tokens.isEmpty then decomposition_loop rules rest
    else
      match decomposition_line rules tokens with
      | none => none
      | some rules' => decomposition_loop rules' rest

/-- `import_decomposition`. -/
def import_decomposition (file : Option (List Str)) (decomposition_rules : DecompRules) :
    DecompRules :=
  match file with
  | none => decomposition_rules
  | some lines =>
    match decomposition_loop [] (effectiveLines lines) with
    | none => decomposition_rules
    | some new_rules =>
      if new_rules.isEmpty then decomposition_rules else new_rules

/-- The read-and-parse loop of `import_mapping_ascii`: each non-empty
line is exactly a 16-bit hex code point and an ASCII glyph token;
`new_mapping_ascii[code_point] = character` overwrites. -/
def mapping_ascii_loop (mapping : List (Nat × Nat)) : List Str → Option (List (Nat × Nat))
  | [] => some mapping
  | line :: rest =>
    let tokens := get_tokens line
    if tokens.isEmpty then mapping_ascii_loop mapping rest
    else
      if tokens.length ≠ 2 then none
      else
        match get_hex_16bit (tokens.getD 0 []), get_ascii (tokens.getD 1 []) with
        | some code_point, some character =>
          mapping_ascii_loop (assocSet mapping code_point character) rest
        | _, _ => none

/-- `import_mapping_ascii`. -/
def import_mapping_ascii (file : Option (List Str)) (mapping_ascii : List (Nat × Nat)) :
    List (Nat × Nat) :=
  match file with
  | none => mapping_ascii
  | some lines =>
    match mapping_ascii_loop [] (effectiveLines lines) with
    | none => mapping_ascii
    | some new_mapping =>
      if new_mapping.isEmpty then mapping_ascii else new_mapping

example :
    import_mapping_ascii (some ["0x0104 A".toList, "# c".toList, "0x20AC SPC".toList]) []
      = [(0x0104, 0x41), (0x20AC, 0x20)] := by decide
example : import_mapping_ascii (some ["0x0104".toList]) [(1, 2)] = [(1, 2)] := by decide
example :
    import_decomposition (some ["0x00C1 0x0041 0x0301".toList]) []
      = [(0xC1, (Grapheme.ofCp 0x41).AddMark 0x301)] := by decide
example :
    (import_config_main (some ["CODEPAGE 437".toList, "0x80 0x00C7".toList]) {}).config_mappings
      = [(437, { valid := true, mapping := [(0x80, Grapheme.ofCp 0xC7)] })] := by decide

/-!
Graphemes constructible through the class interface.  `setBase` is the
direct base assignment `code_point = rule.code_point` performed inside
`Grapheme::Decompose`; together with `addMark` it covers every mutation
`Decompose` performs, for an arbitrary rule table.
-/

/-- The graphemes reachable through the public mutations of the
`Grapheme` class. -/
inductive ReachableGrapheme : Grapheme → Prop
  | dflt : ReachableGrapheme Grapheme.empty
  | ofCp (cp : Nat) : ReachableGrapheme (Grapheme.ofCp cp)
  | invalidate {g : Grapheme} :
      ReachableGrapheme g → ReachableGrapheme g.Invalidate
  | addMark {g : Grapheme} (cp : Nat) :
      ReachableGrapheme g → ReachableGrapheme (g.AddMark cp)
  | stripMarks {g : Grapheme} :
      ReachableGrapheme g → ReachableGrapheme g.StripMarks
  | setBase {g : Grapheme} (cp : Nat) :
      ReachableGrapheme g → ReachableGrapheme { g with code_point := cp }

/-!
Verification of the claims.
-/

lemma reachable_marks_sorted_flags {g : Grapheme} (h : ReachableGrapheme g) :
    g.marks_sorted ≠ [] → g.is_empty = false ∧ g.is_valid = true := by
  induction h with
  | dflt => intro hm; exact absurd rfl hm
  | ofCp cp =>
    intro hm
    exfalso; apply hm
    unfold Grapheme.ofCp Grapheme.Invalidate
    split <;> rfl
  | invalidate h ih => intro hm; exact absurd rfl hm
  | addMark cp h ih =>
    intro hm
    unfold Grapheme.AddMark at hm ⊢
    split_ifs at hm ⊢ with h1 h2 h3
    · exact ih hm
    · exact absurd rfl hm
    · exact ih hm
    · simp only [Bool.not_eq_false] at h1
      push_neg at h2
      simp only [Bool.not_eq_true] at h2
      exact ⟨h2.2, h1⟩
  | stripMarks h ih => intro hm; exact absurd rfl hm
  | setBase cp h ih => intro hm; exact ih hm

/-- Claim C9 (confirmed): the trailing assertions of
`Grapheme::operator<` hold.  Control reaches them exactly when the two
graphemes have equal base code points and equal sorted mark lists that
are not both empty (the all-empty case returns early); for any two
graphemes constructible through the class interface this forces the
`is_empty` and `is_valid` flags to agree, because a nonempty sorted
mark list only ever arises on a non-empty, valid grapheme. -/
theorem claim_C9 (g1 g2 : Grapheme)
    (h1 : ReachableGrapheme g1) (h2 : ReachableGrapheme g2)
    (_hcp : g1.code_point = g2.code_point)
    (hms : g1.marks_sorted = g2.marks_sorted)
    (hne : ¬(g1.marks_sorted = [] ∧ g2.marks_sorted = [])) :
    g1.is_empty = g2.is_empty ∧ g1.is_valid = g2.is_valid := by
  have hne1 : g1.marks_sorted ≠ [] := by
    intro h
    exact hne ⟨h, hms ▸ h⟩
  have hne2 : g2.marks_sorted ≠ [] := hms ▸ hne1
  obtain ⟨e1, v1⟩ := reachable_marks_sorted_flags h1 hne1
  obtain ⟨e2, v2⟩ := reachable_marks_sorted_flags h2 hne2
  rw [e1, e2, v1, v2]
  exact ⟨rfl, rfl⟩

theorem claim_C9_witness :
    ((Grapheme.ofCp 0x41).AddMark 0x300).is_empty =
      (((Grapheme.ofCp 0x41).AddMark 0x300).AddMark 0x300).is_empty ∧
    ((Grapheme.ofCp 0x41).AddMark 0x300).is_valid =
      (((Grapheme.ofCp 0x41).AddMark 0x300).AddMark 0x300).is_valid :=
  claim_C9 _ _
    (ReachableGrapheme.addMark 0x300 (ReachableGrapheme.ofCp 0x41))
    (ReachableGrapheme.addMark 0x300
      (ReachableGrapheme.addMark 0x300 (ReachableGrapheme.ofCp 0x41)))
    (by decide) (by decide) (by decide)

lemma wide_to_dos_go_length (ctx : ResolveCtx) (l : List Nat) :
    ∀ g, (wide_to_dos_go ctx l g).1.length = graphemeCountGo l := by
  induction l with
  | nil =>
    intro g
    cases hr : resolveGrapheme ctx g <;>
      simp [wide_to_dos_go, hr, graphemeCountGo]
  | cons c rest ih =>
    intro g
    by_cases hc : is_combining_mark c
    · simp [wide_to_dos_go, hc, graphemeCountGo, ih]
    · cases hr : resolveGrapheme ctx g <;>
        simp [wide_to_dos_go, hc, hr, graphemeCountGo, ih, Nat.add_comm]

/-- Claim C4 (confirmed): `wide_to_dos` emits exactly one byte per
assembled grapheme: for every state, code page and code-point sequence
the output length equals the number of graphemes (each base code point
together with the run of combining marks immediately following it),
with the unknown-character sentinel emitted when no fallback step
succeeds. -/
theorem claim_C4 (st : UnicodeState) (code_page : Nat) (str_in : List Nat) :
    (wide_to_dos st code_page str_in).1.length = graphemeCount str_in := by
  cases str_in with
  | nil => rfl
  | cons c rest =>
    simp [wide_to_dos, graphemeCount, wide_to_dos_go_length]

/-- A state whose reverse table for code page 437 maps byte 0x80 to the
default-constructed (empty) grapheme — the situation the loaders create
for an `<byte_hex>`-only "undefined character" line. -/
def stateEmptyRev : UnicodeState :=
  { mappings_reverse_by_codepage := fun cp =>
      if cp = 437 then
        some (fun b => if b = 0x80 then some Grapheme.empty else none)
      else none }

/-- Claim C2 counterexample: when the reverse mapping stores an empty
grapheme for a byte, `dos_to_wide` emits nothing at all for that byte
(`Grapheme::PushInto` returns early), not the claimed single 0x3F
sentinel. -/
theorem claim_C2_counterexample :
    dos_to_wide stateEmptyRev 437 [0x80] = [] ∧
    ([] : List Nat) ≠ [unknown_character] := by decide

/-- Claim C2 (corrected): in `dos_to_wide`, for a byte at or above
0x80: if the code page has no reverse table, or the table has no entry
for the byte, exactly one unknown-character sentinel is pushed; if the
stored grapheme is non-empty and valid its base and then its marks are
pushed; but if the stored grapheme is empty or invalid, nothing at all
is pushed for that byte. -/
theorem claim_C2 (st : UnicodeState) (code_page byte : Nat)
    (hb : 0x80 ≤ byte) :
    (st.mappings_reverse_by_codepage code_page = none →
      dos_byte_to_wide st code_page byte = [unknown_character]) ∧
    (∀ table, st.mappings_reverse_by_codepage code_page = some table →
      (table byte = none →
        dos_byte_to_wide st code_page byte = [unknown_character]) ∧
      (∀ g, table byte = some g →
        (g.is_empty = false → g.is_valid = true →
          dos_byte_to_wide st code_page byte = g.code_point :: g.marks) ∧
        (g.is_empty = true ∨ g.is_valid = false →
          dos_byte_to_wide st code_page byte = []))) := by
  refine ⟨fun hnone => ?_, fun table htable => ⟨fun hmiss => ?_, fun g hg => ⟨?_, ?_⟩⟩⟩
  · simp [dos_byte_to_wide, hb, hnone]
  · simp [dos_byte_to_wide, hb, htable, hmiss]
  · intro he hv
    simp [dos_byte_to_wide, hb, htable, hg, Grapheme.PushInto, he, hv]
  · intro hcase
    rcases hcase with he | hv
    · simp [dos_byte_to_wide, hb, htable, hg, Grapheme.PushInto, he]
    · simp [dos_byte_to_wide, hb, htable, hg, Grapheme.PushInto, hv]

theorem claim_C2_witness :
    dos_byte_to_wide stateEmptyRev 437 0x81 = [unknown_character] ∧
    dos_byte_to_wide stateEmptyRev 437 0x80 = [] :=
  ⟨((claim_C2 stateEmptyRev 437 0x81 (by decide)).2
      (fun b => if b = 0x80 then some Grapheme.empty else none) rfl).1 rfl,
   (((claim_C2 stateEmptyRev 437 0x80 (by decide)).2
      (fun b => if b = 0x80 then some Grapheme.empty else none) rfl).2
      Grapheme.empty rfl).2 (Or.inl rfl)⟩

/-- Claim C1 counterexample: the lead byte 0xC3 with its continuation
byte missing is a malformed 2-byte sequence, yet `utf8_to_wide` emits
the partially decoded value 0xC0 for that position, not the 0x3F
sentinel (the status flag is cleared). -/
theorem claim_C1_counterexample :
    utf8_to_wide [0xC3] = ([0xC0], false) ∧ (0xC0 : Nat) ≠ unknown_character := by
  decide

/-- Claim C1 (corrected): in `utf8_to_wide`, the status flag is cleared
at every malformed position, but the 0x3F sentinel is emitted only for
a lone continuation byte (and for the unsupported 4-6-byte leads); for
a 2-byte or 3-byte lead whose required continuation bytes are missing
or outside 0x80..0xBF, the emitted code point is the partial decode
(the lead payload shifted, plus any valid continuation payloads), which
is never 0x3F. -/
theorem claim_C1 (b : Nat) (rest : List Nat) :
    (0x80 ≤ b → b < 0xC0 →
      utf8_step b rest = (unknown_character, 0, false) ∧
      (utf8_to_wide (b :: rest)).1.head? = some unknown_character ∧
      (utf8_to_wide (b :: rest)).2 = false) ∧
    (0xC0 ≤ b → b < 0xE0 → cont_ok (rest.getD 0 0) = false →
      utf8_step b rest = ((b - 0xC0) * 64, 0, false) ∧
      (b - 0xC0) * 64 ≠ unknown_character ∧
      (utf8_to_wide (b :: rest)).2 = false) ∧
    (0xE0 ≤ b → b < 0xF0 → cont_ok (rest.getD 0 0) = false →
      utf8_step b rest = ((b - 0xE0) * 4096, 0, false) ∧
      (b - 0xE0) * 4096 ≠ unknown_character ∧
      (utf8_to_wide (b :: rest)).2 = false) ∧
    (0xE0 ≤ b → b < 0xF0 → cont_ok (rest.getD 0 0) = true →
      cont_ok (rest.getD 1 0) = false →
      utf8_step b rest = (((b - 0xE0) * 64 + (rest.getD 0 0 - 0x80)) * 64, 1, false) ∧
      ((b - 0xE0) * 64 + (rest.getD 0 0 - 0x80)) * 64 ≠ unknown_character ∧
      (utf8_to_wide (b :: rest)).2 = false) := by
  refine ⟨fun h1 h2 => ?_, fun h1 h2 hc => ?_, fun h1 h2 hc => ?_,
          fun h1 h2 hc hc3 => ?_⟩
  all_goals try simp only [List.getD_eq_getElem?_getD] at hc
  all_goals try simp only [List.getD_eq_getElem?_getD] at hc3
  · have hstep : utf8_step b rest = (unknown_character, 0, false) := by
      simp [utf8_step, show ¬(0xFC ≤ b) by omega, show ¬(0xF8 ≤ b) by omega,
            show ¬(0xF0 ≤ b) by omega, show ¬(0xE0 ≤ b) by omega,
            show ¬(0xC0 ≤ b) by omega, show ¬(b < 0x80) by omega]
    refine ⟨hstep, ?_, ?_⟩ <;> simp [utf8_to_wide, utf8_to_wide_go, hstep, unknown_character]
  · have hstep : utf8_step b rest = ((b - 0xC0) * 64, 0, false) := by
      simp [utf8_step, hc, show ¬(0xFC ≤ b) by omega, show ¬(0xF8 ≤ b) by omega,
            show ¬(0xF0 ≤ b) by omega, show ¬(0xE0 ≤ b) by omega,
            show 0xC0 ≤ b from h1,
            Nat.mod_eq_of_lt (show b - 0xC0 < 256 by omega)]
    refine ⟨hstep, by simp only [unknown_character]; omega, ?_⟩
    simp [utf8_to_wide, utf8_to_wide_go, hstep]
  · have hstep : utf8_step b rest = ((b - 0xE0) * 4096, 0, false) := by
      simp [utf8_step, hc, show ¬(0xFC ≤ b) by omega, show ¬(0xF8 ≤ b) by omega,
            show ¬(0xF0 ≤ b) by omega, show 0xE0 ≤ b from h1,
            Nat.mod_eq_of_lt (show b - 0xE0 < 256 by omega), Nat.mul_assoc]
    refine ⟨hstep, by simp only [unknown_character]; omega, ?_⟩
    simp [utf8_to_wide, utf8_to_wide_go, hstep]
  · have hstep : utf8_step b rest =
        (((b - 0xE0) * 64 + (rest.getD 0 0 - 0x80)) * 64, 1, false) := by
      simp [utf8_step, hc, hc3, show ¬(0xFC ≤ b) by omega, show ¬(0xF8 ≤ b) by omega,
            show ¬(0xF0 ≤ b) by omega, show 0xE0 ≤ b from h1,
            Nat.mod_eq_of_lt (show b - 0xE0 < 256 by omega)]
    refine ⟨hstep, ?_, ?_⟩
    · have hr : 0x80 ≤ rest[0]?.getD 0 := by
        simp only [cont_ok, Bool.and_eq_true, decide_eq_true_eq] at hc
        omega
      simp only [unknown_character, List.getD_eq_getElem?_getD]
      omega
    · simp [utf8_to_wide, utf8_to_wide_go, hstep]

theorem claim_C1_witness :
    utf8_step 0x85 [] = (unknown_character, 0, false) ∧
    utf8_step 0xC3 [] = ((0xC3 - 0xC0) * 64, 0, false) ∧
    (0xC3 - 0xC0) * 64 ≠ unknown_character ∧
    (utf8_to_wide [0xC3]).2 = false := by
  have h1 := (claim_C1 0x85 []).1 (by decide) (by decide)
  have h2 := (claim_C1 0xC3 []).2.1 (by decide) (by decide) (by decide)
  exact ⟨h1.1, h2.1, h2.2.1, h2.2.2⟩

lemma not_combining_of_lt (c : Nat) (h : c < 0x300) : is_combining_mark c = false := by
  simp only [is_combining_mark, Bool.or_eq_false_iff, Bool.and_eq_false_iff,
             decide_eq_false_iff_not, not_le]
  omega

lemma utf8_step_ascii (b : Nat) (rest : List Nat) (h1 : b < 0x80) :
    utf8_step b rest = (b, 0, true) := by
  simp [utf8_step, show ¬(0xFC ≤ b) by omega, show ¬(0xF8 ≤ b) by omega,
        show ¬(0xF0 ≤ b) by omega, show ¬(0xE0 ≤ b) by omega,
        show ¬(0xC0 ≤ b) by omega, h1]

lemma utf8_to_wide_ascii (s : List Nat) (h : ∀ b ∈ s, 0x20 ≤ b ∧ b ≤ 0x7E) :
    utf8_to_wide s = (s, true) := by
  induction s with
  | nil => rfl
  | cons b rest ih =>
    have hb := h b (List.mem_cons_self b rest)
    have hstep := utf8_step_ascii b rest (by omega)
    have ihr := ih (fun x hx => h x (List.mem_cons_of_mem b hx))
    simp only [utf8_to_wide] at ihr ⊢
    simp [utf8_to_wide_go, hstep, ihr, Nat.mod_eq_of_lt (show b < 65536 by omega)]

lemma ofCp_ascii_fields (c : Nat) (h : c < 0x300) :
    Grapheme.ofCp c = { code_point := c, is_empty := false } := by
  simp [Grapheme.ofCp, not_combining_of_lt c h]

lemma resolve_ascii (ctx : ResolveCtx) (c : Nat) (h1 : c < 0x80) :
    resolveGrapheme ctx (Grapheme.ofCp c) = some c := by
  have hof := ofCp_ascii_fields c (by omega)
  simp [resolveGrapheme, push_normalized, push_7bit, hof, Grapheme.HasMark,
        Grapheme.GetCodePoint, show ¬(0x80 ≤ c) by omega, Option.orElse]

lemma wide_to_dos_go_ascii (ctx : ResolveCtx) (rest : List Nat) :
    ∀ c, 0x20 ≤ c ∧ c ≤ 0x7E → (∀ b ∈ rest, 0x20 ≤ b ∧ b ≤ 0x7E) →
      wide_to_dos_go ctx rest (Grapheme.ofCp c) = (c :: rest, true) := by
  induction rest with
  | nil =>
    intro c hc _
    simp [wide_to_dos_go, resolve_ascii ctx c (by omega)]
  | cons x rest ih =>
    intro c hc h
    have hx := h x (List.mem_cons_self x rest)
    have hnc : is_combining_mark x = false := not_combining_of_lt x (by omega)
    simp [wide_to_dos_go, hnc, resolve_ascii ctx c (by omega),
          ih x hx (fun b hb => h b (List.mem_cons_of_mem x hb))]

lemma wide_to_dos_ascii (st : UnicodeState) (code_page : Nat) (s : List Nat)
    (h : ∀ b ∈ s, 0x20 ≤ b ∧ b ≤ 0x7E) :
    wide_to_dos st code_page s = (s, true) := by
  cases s with
  | nil => rfl
  | cons c rest =>
    exact wide_to_dos_go_ascii _ rest c (h c (List.mem_cons_self c rest))
      (fun b hb => h b (List.mem_cons_of_mem c hb))

lemma dos_to_wide_ascii (st : UnicodeState) (code_page : Nat) (s : List Nat)
    (h : ∀ b ∈ s, 0x20 ≤ b ∧ b ≤ 0x7E) :
    dos_to_wide st code_page s = s := by
  induction s with
  | nil => rfl
  | cons b rest ih =>
    have hb := h b (List.mem_cons_self b rest)
    have ihr := ih (fun x hx => h x (List.mem_cons_of_mem b hx))
    simp [dos_to_wide, dos_byte_to_wide, show ¬(0x80 ≤ b) by omega,
          show b ≠ 0x7f by omega, hb.1, ihr]

lemma wide_to_utf8_ascii (s : List Nat) (h : ∀ b ∈ s, b < 0x80) :
    wide_to_utf8 s = s := by
  induction s with
  | nil => rfl
  | cons cp rest ih =>
    have hb := h cp (List.mem_cons_self cp rest)
    have ihr := ih (fun x hx => h x (List.mem_cons_of_mem cp hx))
    simp [wide_to_utf8, hb, Nat.mod_eq_of_lt (show cp < 256 by omega), ihr]

/-- Claim C3 (confirmed): for every byte string containing only bytes
0x20..0x7E, `dos_to_utf8(s, 437)` returns `s` unchanged and
`utf8_to_dos(s, 437)` returns `(s, true)` — the 7-bit path never
consults any table, so this holds for every state of the registry. -/
theorem claim_C3 (st : UnicodeState) (s : List Nat)
    (h : ∀ b ∈ s, 0x20 ≤ b ∧ b ≤ 0x7E) :
    dos_to_utf8 st s 437 = s ∧ utf8_to_dos st s 437 = (s, true) := by
  constructor
  · simp [dos_to_utf8, dos_to_wide_ascii st _ s h,
          wide_to_utf8_ascii s (fun b hb => by have := h b hb; omega)]
  · simp [utf8_to_dos, utf8_to_wide_ascii s h, wide_to_dos_ascii st _ s h]

theorem claim_C3_witness :
    dos_to_utf8 {} [0x48, 0x69, 0x21] 437 = [0x48, 0x69, 0x21] ∧
    utf8_to_dos {} [0x48, 0x69, 0x21] 437 = ([0x48, 0x69, 0x21], true) :=
  claim_C3 {} [0x48, 0x69, 0x21] (by decide)

/-- Claim C10 (confirmed): `get_custom_code_page 0 = 0` (never falling
back to 437); with code page 0 the four per-code-page lookup pointers
of `wide_to_dos` stay null, so the conversion depends only on the
global ASCII fallback table and the decomposition rules (the only
emitting steps left are the 7-bit shortcut and the ASCII fallback);
and for a nonzero code page whose preparation fails the result is
`get_default_code_page`, i.e. 437 if preparing 437 succeeds and 0
otherwise. -/
theorem claim_C10 (st st' : UnicodeState) (s : List Nat) (cp : Nat) :
    get_custom_code_page st 0 = 0 ∧
    (st.mapping_ascii = st'.mapping_ascii →
      st.decomposition_rules = st'.decomposition_rules →
      wide_to_dos st 0 s = wide_to_dos st' 0 s) ∧
    (cp ≠ 0 → st.prepare (deduplicate_code_page st cp) = false →
      get_custom_code_page st cp = get_default_code_page st ∧
      get_default_code_page st = (if st.prepare 437 then 437 else 0)) := by
  refine ⟨rfl, fun ha hd => ?_, fun hcp hprep => ?_⟩
  · have hctx : mkResolveCtx st 0 = mkResolveCtx st' 0 := by
      simp [mkResolveCtx, ha, hd]
    cases s with
    | nil => rfl
    | cons c rest => simp [wide_to_dos, hctx]
  · constructor
    · simp [get_custom_code_page, hcp, hprep]
    · rfl

theorem claim_C10_witness :
    get_custom_code_page {} 0 = 0 ∧
    wide_to_dos {} 0 [0x41] = wide_to_dos {} 0 [0x41] ∧
    (get_custom_code_page {} 5 = get_default_code_page {} ∧
     get_default_code_page {} = (if ({} : UnicodeState).prepare 437 then 437 else 0)) := by
  have h := claim_C10 {} {} [0x41] 5
  exact ⟨h.1, h.2.1 rfl rfl, h.2.2 (by decide) rfl⟩

lemma import_decomposition_loop_none (lines : List Str) (old : DecompRules)
    (h : decomposition_loop [] (effectiveLines lines) = none) :
    import_decomposition (some lines) old = old := by
  simp [import_decomposition, h]

/-- Claim C6 (confirmed): each of the three importers is atomic.  For
every file content and every prior table state: an unreadable file, a
parse error anywhere in the file, or a file with no (meaningful)
entries leaves the corresponding global tables exactly as they were;
the tables are replaced, with the fully parsed result, only when the
whole file was read and parsed successfully. -/
theorem claim_C6 :
    (∀ g : ConfigTables, import_config_main none g = g) ∧
    (∀ lines (g : ConfigTables), main_loop {} (effectiveLines lines) = none →
      import_config_main (some lines) g = g) ∧
    (∀ lines (g : ConfigTables) stt,
      main_loop {} (effectiveLines lines) = some stt →
      stt.file_empty = true → import_config_main (some lines) g = g) ∧
    (∀ lines (g : ConfigTables) stt,
      main_loop {} (effectiveLines lines) = some stt →
      stt.file_empty = false →
      import_config_main (some lines) g =
        { config_mappings := stt.new_config_mappings,
          config_duplicates := stt.new_config_duplicates,
          config_aliases := stt.new_config_aliases }) ∧
    (∀ old : DecompRules, import_decomposition none old = old) ∧
    (∀ lines (old : DecompRules),
      decomposition_loop [] (effectiveLines lines) = none →
      import_decomposition (some lines) old = old) ∧
    (∀ lines (old r : DecompRules),
      decomposition_loop [] (effectiveLines lines) = some r →
      r.isEmpty = true → import_decomposition (some lines) old = old) ∧
    (∀ lines (old r : DecompRules),
      decomposition_loop [] (effectiveLines lines) = some r →
      r.isEmpty = false → import_decomposition (some lines) old = r) ∧
    (∀ old : List (Nat × Nat), import_mapping_ascii none old = old) ∧
    (∀ lines (old : List (Nat × Nat)),
      mapping_ascii_loop [] (effectiveLines lines) = none →
      import_mapping_ascii (some lines) old = old) ∧
    (∀ lines (old m : List (Nat × Nat)),
      mapping_ascii_loop [] (effectiveLines lines) = some m →
      m.isEmpty = true → import_mapping_ascii (some lines) old = old) ∧
    (∀ lines (old m : List (Nat × Nat)),
      mapping_ascii_loop [] (effectiveLines lines) = some m →
      m.isEmpty = false → import_mapping_ascii (some lines) old = m) := by
  refine ⟨fun g => rfl, fun lines g h => ?_, fun lines g stt h hfe => ?_,
          fun lines g stt h hfe => ?_, fun old => rfl,
          fun lines old h => import_decomposition_loop_none lines old h,
          fun lines old r h hr => ?_, fun lines old r h hr => ?_,
          fun old => rfl, fun lines old h => ?_, fun lines old m h hm => ?_,
          fun lines old m h hm => ?_⟩
  · simp [import_config_main, h]
  · simp [import_config_main, h, hfe]
  · simp [import_config_main, h, hfe]
  · simp [import_decomposition, h, hr]
  · simp [import_decomposition, h, hr]
  · simp [import_mapping_ascii, h]
  · simp [import_mapping_ascii, h, hm]
  · simp [import_mapping_ascii, h, hm]

theorem claim_C6_witness :
    import_config_main (some ["zzz".toList]) {} = ({} : ConfigTables) ∧
    import_decomposition (some ["0x0100".toList]) [(1, Grapheme.ofCp 2)] =
      [(1, Grapheme.ofCp 2)] ∧
    import_mapping_ascii (some ["0x0104".toList]) [(3, 4)] = [(3, 4)] ∧
    import_mapping_ascii (some ["0x0104 A".toList]) [(3, 4)] = [(0x0104, 0x41)] := by
  obtain ⟨h1, h2, h3, h4, h5, h6, h7, h8, h9, h10, h11, h12⟩ := claim_C6
  exact ⟨h2 _ _ (by decide), h6 _ _ (by decide), h10 _ _ (by decide),
         h12 _ _ [(0x0104, 0x41)] (by decide) (by decide)⟩

lemma lookup_assocSet {α : Type} (m : List (Nat × α)) (k : Nat) (v : α) :
    (assocSet m k v).lookup k = some v := by
  induction m with
  | nil => simp [assocSet, List.lookup]
  | cons p rest ih =>
    by_cases hk : p.1 = k
    · simp [assocSet, hk, List.lookup]
    · have hb : (k == p.1) = false := by
        simp only [beq_eq_false_iff_ne]
        exact Ne.symm hk
      simp [assocSet, hk, List.lookup, hb, ih]

lemma lookup_assocModify {α : Type} (m : List (Nat × α)) (k : Nat) (d : α) (f : α → α) :
    (assocModify m k d f).lookup k = some (f ((m.lookup k).getD d)) := by
  induction m with
  | nil => simp [assocModify, List.lookup]
  | cons p rest ih =>
    by_cases hk : p.1 = k
    · simp [assocModify, hk, List.lookup]
    · have hb : (k == p.1) = false := by
        simp only [beq_eq_false_iff_ne]
        exact Ne.symm hk
      simp [assocModify, hk, List.lookup, hb, ih]

/-- Claim C8 counterexample: two `DECOMPOSITION.TXT` lines with the
same source code point 0x0100 parse without error; the second line
silently replaces the first rule instead of being rejected, and the new
table is installed (the claim demands the table be discarded, i.e. stay
`[]`). -/
theorem claim_C8_counterexample :
    import_decomposition
        (some ["0x0100 0x0041 0x0300".toList, "0x0100 0x0045 0x0301".toList]) [] =
      [(0x0100, (Grapheme.ofCp 0x45).AddMark 0x301)] ∧
    [(0x0100, (Grapheme.ofCp 0x45).AddMark 0x301)] ≠ ([] : DecompRules) := by
  constructor
  · decide
  · decide

/-- Every token of `ms` parses as a 16-bit hex number whose value is a
supported combining mark, with `mvals` the parsed values. -/
def MarksParse (ms : List Str) (mvals : List Nat) : Prop :=
  List.Forall₂
    (fun t v => get_hex_16bit t = some v ∧ is_combining_mark v = true) ms mvals

lemma decomposition_marks_ok (cp1 : Nat) {ms : List Str} {mvals : List Nat}
    (hf : MarksParse ms mvals) :
    ∀ rules : DecompRules,
      ∃ r, decomposition_marks rules cp1 ms = some r ∧
        ∀ g : Grapheme, lookupRule rules cp1 = some g →
          lookupRule r cp1 = some (g.addMarks mvals) := by
  induction hf with
  | nil => exact fun rules => ⟨rules, rfl, fun g hg => hg⟩
  | @cons a b l1 l2 hx hrest ih =>
    intro rules
    obtain ⟨ht, hv⟩ := hx
    obtain ⟨r, hr, hlook⟩ := ih (assocModify rules cp1 {} (fun g => g.AddMark b))
    refine ⟨r, ?_, ?_⟩
    · rw [decomposition_marks, ht]
      show (if is_combining_mark b = false then none
            else decomposition_marks
              (assocModify rules cp1 {} (fun g => g.AddMark b)) cp1 l1) = some r
      rw [hv]
      simpa using hr
    · intro g hg
      have hstep : lookupRule (assocModify rules cp1 {} (fun g => g.AddMark b)) cp1 =
          some (g.AddMark b) := by
        unfold lookupRule at hg ⊢
        rw [lookup_assocModify, hg]
        rfl
      exact hlook (g.AddMark b) hstep

lemma decomposition_marks_fail (cp1 : Nat) {pre : List Str} {prevals : List Nat}
    (hf : MarksParse pre prevals) :
    ∀ (tm : Str) (rest : List Str) (rules : DecompRules),
      (get_hex_16bit tm = none ∨
        ∃ m, get_hex_16bit tm = some m ∧ is_combining_mark m = false) →
      decomposition_marks rules cp1 (pre ++ tm :: rest) = none := by
  induction hf with
  | nil =>
    intro tm rest rules hbad
    rcases hbad with h | ⟨m, hm, hc⟩
    · rw [List.nil_append, decomposition_marks, h]
    · rw [List.nil_append, decomposition_marks, hm]
      show (if is_combining_mark m = false then none
            else decomposition_marks
              (assocModify rules cp1 {} (fun g => g.AddMark m)) cp1 rest) = none
      rw [hc]
      simp
  | @cons a b l1 l2 hx hrest ih =>
    intro tm rest rules hbad
    obtain ⟨ht, hv⟩ := hx
    rw [List.cons_append, decomposition_marks, ht]
    show (if is_combining_mark b = false then none
          else decomposition_marks
            (assocModify rules cp1 {} (fun g => g.AddMark b)) cp1
            (l1 ++ tm :: rest)) = none
    rw [hv]
    simpa using ih tm rest _ hbad

/-- Claim C8 (corrected): when parsing `DECOMPOSITION.TXT`, a line
whose source code point already has a rule from an earlier line is
*not* rejected — `new_rules[cp] = base` overwrites, so for every list
of well-formed mark tokens the line parses successfully and silently
replaces the earlier rule with the freshly built grapheme; a mark
token at *any* position that fails 16-bit hex parsing or does not
satisfy `is_combining_mark` (all earlier mark tokens being well formed)
is rejected as a parse error, and any parse error leaves the global
rule table untouched. -/
theorem claim_C8 :
    (∀ (rules : DecompRules) t0 t1 (ms : List Str) (mvals : List Nat)
        cp1 cp2 (g0 : Grapheme),
      get_hex_16bit t0 = some cp1 → get_hex_16bit t1 = some cp2 →
      ms ≠ [] → MarksParse ms mvals →
      lookupRule rules cp1 = some g0 →
      ∃ r, decomposition_line rules (t0 :: t1 :: ms) = some r ∧
        lookupRule r cp1 = some ((Grapheme.ofCp cp2).addMarks mvals)) ∧
    (∀ (rules : DecompRules) t0 t1 (pre : List Str) (prevals : List Nat)
        tm (rest : List Str) cp1 cp2,
      get_hex_16bit t0 = some cp1 → get_hex_16bit t1 = some cp2 →
      MarksParse pre prevals →
      (get_hex_16bit tm = none ∨
        ∃ m, get_hex_16bit tm = some m ∧ is_combining_mark m = false) →
      decomposition_line rules (t0 :: t1 :: (pre ++ tm :: rest)) = none) ∧
    (∀ lines (old : DecompRules),
      decomposition_loop [] (effectiveLines lines) = none →
      import_decomposition (some lines) old = old) := by
  refine ⟨fun rules t0 t1 ms mvals cp1 cp2 g0 h0 h1 hne hf hdup => ?_,
          fun rules t0 t1 pre prevals tm rest cp1 cp2 h0 h1 hf hbad => ?_,
          fun lines old h => import_decomposition_loop_none lines old h⟩
  · obtain ⟨r, hr, hlook⟩ :=
      decomposition_marks_ok cp1 hf (assocSet rules cp1 (Grapheme.ofCp cp2))
    refine ⟨r, ?_, ?_⟩
    · unfold decomposition_line
      have hlen : ¬((t0 :: t1 :: ms).length < 3) := by
        cases ms with
        | nil => exact absurd rfl hne
        | cons _ _ => simp
      rw [if_neg hlen]
      simp only [List.getD_cons_zero, List.getD_cons_succ, h0, h1, List.drop_succ_cons,
                 List.drop_zero]
      exact hr
    · refine hlook (Grapheme.ofCp cp2) ?_
      unfold lookupRule
      exact lookup_assocSet rules cp1 _
  · unfold decomposition_line
    have hlen : ¬((t0 :: t1 :: (pre ++ tm :: rest)).length < 3) := by
      simp only [List.length_cons, List.length_append]
      omega
    rw [if_neg hlen]
    simp only [List.getD_cons_zero, List.getD_cons_succ, h0, h1, List.drop_succ_cons,
               List.drop_zero]
    exact decomposition_marks_fail cp1 hf tm rest _ hbad

theorem claim_C8_witness :
    (∃ r, decomposition_line [(0x0100, Grapheme.ofCp 0x41)]
        ["0x0100".toList, "0x0045".toList, "0x0301".toList, "0x0302".toList] = some r ∧
      lookupRule r 0x0100 =
        some (((Grapheme.ofCp 0x45).AddMark 0x301).AddMark 0x302)) ∧
    decomposition_line []
      ["0x0100".toList, "0x0045".toList, "0x0301".toList, "0x0020".toList] = none ∧
    import_decomposition (some ["0x0100".toList]) [(7, Grapheme.ofCp 8)] =
      [(7, Grapheme.ofCp 8)] := by
  obtain ⟨h1, h2, h3⟩ := claim_C8
  refine ⟨?_, ?_, h3 _ _ (by decide)⟩
  · exact h1 [(0x0100, Grapheme.ofCp 0x41)] "0x0100".toList "0x0045".toList
      ["0x0301".toList, "0x0302".toList] [0x0301, 0x0302] 0x0100 0x0045
      (Grapheme.ofCp 0x41) (by decide) (by decide) (by decide)
      (List.Forall₂.cons (by decide)
        (List.Forall₂.cons (by decide) List.Forall₂.nil))
      (by decide)
  · exact h2 [] "0x0100".toList "0x0045".toList ["0x0301".toList] [0x0301]
      "0x0020".toList [] 0x0100 0x0045 (by decide) (by decide)
      (List.Forall₂.cons (by decide) List.Forall₂.nil)
      (Or.inr ⟨0x0020, by decide, by decide⟩)

/-!
Mark-order insensitivity of `Grapheme` equality (claim C5).
`GraphemeEqOp` is `operator==` as a proposition; `GraphemeWf` is the
invariant — maintained by every constructor and mutation — that the
two mark lists hold the same multiset.
-/

/-- `operator==` as a proposition. -/
def GraphemeEqOp (g other : Grapheme) : Prop :=
  g.is_empty = other.is_empty ∧ g.is_valid = other.is_valid ∧
  g.code_point = other.code_point ∧ g.marks_sorted = other.marks_sorted

/-- `marks_sorted` is a permutation of `marks`. -/
def GraphemeWf (g : Grapheme) : Prop := g.marks_sorted.Perm g.marks

lemma eqOp_iff (g other : Grapheme) :
    Grapheme.eqOp g other = true ↔ GraphemeEqOp g other := by
  simp [Grapheme.eqOp, GraphemeEqOp, and_assoc]

lemma graphemeEqOp_refl (g : Grapheme) : GraphemeEqOp g g := ⟨rfl, rfl, rfl, rfl⟩

lemma graphemeEqOp_trans {g1 g2 g3 : Grapheme} (h1 : GraphemeEqOp g1 g2)
    (h2 : GraphemeEqOp g2 g3) : GraphemeEqOp g1 g3 :=
  ⟨h1.1.trans h2.1, h1.2.1.trans h2.2.1, h1.2.2.1.trans h2.2.2.1,
   h1.2.2.2.trans h2.2.2.2⟩

lemma insertionSort_eq_of_perm {l1 l2 : List Nat} (h : l1.Perm l2) :
    List.insertionSort (· ≤ ·) l1 = List.insertionSort (· ≤ ·) l2 :=
  List.eq_of_perm_of_sorted
    ((List.perm_insertionSort _ l1).trans (h.trans (List.perm_insertionSort _ l2).symm))
    (List.sorted_insertionSort _ l1) (List.sorted_insertionSort _ l2)

lemma addMark_invalid {g : Grapheme} (h : g.is_valid = false) (cp : Nat) :
    g.AddMark cp = g := by
  simp [Grapheme.AddMark, h]

lemma invalidate_const (g g' : Grapheme) : g.Invalidate = g'.Invalidate := rfl

lemma wf_ofCp (cp : Nat) : GraphemeWf (Grapheme.ofCp cp) := by
  unfold GraphemeWf Grapheme.ofCp Grapheme.Invalidate
  split <;> exact List.Perm.refl _

lemma wf_addMark {g : Grapheme} (hw : GraphemeWf g) (cp : Nat) :
    GraphemeWf (g.AddMark cp) := by
  unfold Grapheme.AddMark
  split_ifs with h1 h2 h3
  · exact hw
  · exact List.Perm.refl _
  · exact hw
  · exact (List.perm_insertionSort _ _).trans (hw.append_right [cp])

lemma wf_addMarks {g : Grapheme} (hw : GraphemeWf g) (l : List Nat) :
    GraphemeWf (g.addMarks l) := by
  induction l generalizing g with
  | nil => exact hw
  | cons x xs ih => exact ih (wf_addMark hw x)

lemma addMark_congr {g1 g2 : Grapheme} (hw1 : GraphemeWf g1) (hw2 : GraphemeWf g2)
    (he : GraphemeEqOp g1 g2) (cp : Nat) :
    GraphemeEqOp (g1.AddMark cp) (g2.AddMark cp) := by
  obtain ⟨hemp, hval, hcp, hms⟩ := he
  have hmem : cp ∈ g1.marks ↔ cp ∈ g2.marks := by
    rw [← hw1.mem_iff, ← hw2.mem_iff, hms]
  by_cases hv : g1.is_valid = false
  · have hv2 : g2.is_valid = false := hval ▸ hv
    rw [addMark_invalid hv, addMark_invalid hv2]
    exact ⟨hemp, hval, hcp, hms⟩
  · have hv2 : ¬(g2.is_valid = false) := fun h => hv (hval ▸ h)
    by_cases hbr : is_combining_mark cp = false ∨ g1.is_empty = true
    · have hbr2 : is_combining_mark cp = false ∨ g2.is_empty = true := by
        rcases hbr with h | h
        · exact Or.inl h
        · exact Or.inr (hemp ▸ h)
      simp only [Grapheme.AddMark, if_neg hv, if_neg hv2, if_pos hbr, if_pos hbr2]
      rw [invalidate_const g1 g2]
      exact graphemeEqOp_refl _
    · have hbr2 : ¬(is_combining_mark cp = false ∨ g2.is_empty = true) := by
        intro h
        rcases h with h | h
        · exact hbr (Or.inl h)
        · exact hbr (Or.inr (hemp ▸ h))
      by_cases hmem1 : cp ∈ g1.marks
      · have hmem2 : cp ∈ g2.marks := hmem.1 hmem1
        simp only [Grapheme.AddMark, if_neg hv, if_neg hv2, if_neg hbr, if_neg hbr2,
                   if_pos hmem1, if_pos hmem2]
        exact ⟨hemp, hval, hcp, hms⟩
      · have hmem2 : ¬(cp ∈ g2.marks) := fun h => hmem1 (hmem.2 h)
        simp only [Grapheme.AddMark, if_neg hv, if_neg hv2, if_neg hbr, if_neg hbr2,
                   if_neg hmem1, if_neg hmem2]
        exact ⟨hemp, hval, hcp, by rw [hms]⟩

lemma addMarks_congr {g1 g2 : Grapheme} (hw1 : GraphemeWf g1) (hw2 : GraphemeWf g2)
    (he : GraphemeEqOp g1 g2) (l : List Nat) :
    GraphemeEqOp (g1.addMarks l) (g2.addMarks l) := by
  induction l generalizing g1 g2 with
  | nil => exact he
  | cons x xs ih =>
    exact ih (wf_addMark hw1 x) (wf_addMark hw2 x) (addMark_congr hw1 hw2 he x)

lemma addMark_bad {g : Grapheme} (hv : g.is_valid = true) {m : Nat}
    (hm : is_combining_mark m = false) : g.AddMark m = g.Invalidate := by
  simp [Grapheme.AddMark, hv, hm]

lemma addMark_empty {g : Grapheme} (hv : g.is_valid = true)
    (he : g.is_empty = true) (m : Nat) : g.AddMark m = g.Invalidate := by
  simp [Grapheme.AddMark, hv, he]

lemma addMark_dup {g : Grapheme} (hv : g.is_valid = true) (he : g.is_empty = false)
    {m : Nat} (hm : is_combining_mark m = true) (hmem : m ∈ g.marks) :
    g.AddMark m = g := by
  simp [Grapheme.AddMark, hv, he, hm, hmem]

lemma addMark_push {g : Grapheme} (hv : g.is_valid = true) (he : g.is_empty = false)
    {m : Nat} (hm : is_combining_mark m = true) (hmem : m ∉ g.marks) :
    g.AddMark m =
      { g with marks := g.marks ++ [m],
               marks_sorted := List.insertionSort (· ≤ ·) (g.marks_sorted ++ [m]) } := by
  simp [Grapheme.AddMark, hv, he, hm, hmem]

lemma invalidate_invalid (g : Grapheme) : (g.Invalidate).is_valid = false := rfl

lemma addMark_swap (g : Grapheme) (m1 m2 : Nat) :
    GraphemeEqOp ((g.AddMark m1).AddMark m2) ((g.AddMark m2).AddMark m1) := by
  by_cases hv0 : g.is_valid = false
  · simp only [addMark_invalid hv0]
    exact graphemeEqOp_refl _
  · have hv : g.is_valid = true := by revert hv0; cases g.is_valid <;> simp
    by_cases he0 : g.is_empty = true
    · rw [addMark_empty hv he0 m1, addMark_empty hv he0 m2,
         addMark_invalid (invalidate_invalid g), addMark_invalid (invalidate_invalid g)]
      exact graphemeEqOp_refl _
    · have he : g.is_empty = false := by revert he0; cases g.is_empty <;> simp
      by_cases hc1 : is_combining_mark m1 = true
      · by_cases hc2 : is_combining_mark m2 = true
        · by_cases h12 : m1 = m2
          · subst h12; exact graphemeEqOp_refl _
          · by_cases hm1 : m1 ∈ g.marks <;> by_cases hm2 : m2 ∈ g.marks
            · rw [addMark_dup hv he hc1 hm1, addMark_dup hv he hc2 hm2,
                  addMark_dup hv he hc1 hm1]
              exact graphemeEqOp_refl _
            · have h2 := addMark_push hv he hc2 hm2
              have p2v : (g.AddMark m2).is_valid = true := by rw [h2]; exact hv
              have p2e : (g.AddMark m2).is_empty = false := by rw [h2]; exact he
              have p2m : m1 ∈ (g.AddMark m2).marks := by
                rw [h2]; simp only [List.mem_append]; exact Or.inl hm1
              rw [addMark_dup hv he hc1 hm1, addMark_dup p2v p2e hc1 p2m]
              exact graphemeEqOp_refl _
            · have h1 := addMark_push hv he hc1 hm1
              have p1v : (g.AddMark m1).is_valid = true := by rw [h1]; exact hv
              have p1e : (g.AddMark m1).is_empty = false := by rw [h1]; exact he
              have p1m : m2 ∈ (g.AddMark m1).marks := by
                rw [h1]; simp only [List.mem_append]; exact Or.inl hm2
              rw [addMark_dup hv he hc2 hm2, addMark_dup p1v p1e hc2 p1m]
              exact graphemeEqOp_refl _
            · have h1 := addMark_push hv he hc1 hm1
              have h2 := addMark_push hv he hc2 hm2
              have p1v : (g.AddMark m1).is_valid = true := by rw [h1]; exact hv
              have p1e : (g.AddMark m1).is_empty = false := by rw [h1]; exact he
              have p2v : (g.AddMark m2).is_valid = true := by rw [h2]; exact hv
              have p2e : (g.AddMark m2).is_empty = false := by rw [h2]; exact he
              have p1m : m2 ∉ (g.AddMark m1).marks := by
                rw [h1]
                simp only [List.mem_append, List.mem_singleton]
                exact fun h => h.elim hm2 (fun h' => h12 h'.symm)
              have p2m : m1 ∉ (g.AddMark m2).marks := by
                rw [h2]
                simp only [List.mem_append, List.mem_singleton]
                exact fun h => h.elim hm1 h12
              rw [addMark_push p1v p1e hc2 p1m, addMark_push p2v p2e hc1 p2m]
              have p1c : (g.AddMark m1).code_point = g.code_point := by rw [h1]
              have p2c : (g.AddMark m2).code_point = g.code_point := by rw [h2]
              have p1s : (g.AddMark m1).marks_sorted =
                  List.insertionSort (· ≤ ·) (g.marks_sorted ++ [m1]) := by rw [h1]
              have p2s : (g.AddMark m2).marks_sorted =
                  List.insertionSort (· ≤ ·) (g.marks_sorted ++ [m2]) := by rw [h2]
              refine ⟨p1e.trans p2e.symm, p1v.trans p2v.symm, p1c.trans p2c.symm, ?_⟩
              show List.insertionSort (· ≤ ·) ((g.AddMark m1).marks_sorted ++ [m2]) =
                   List.insertionSort (· ≤ ·) ((g.AddMark m2).marks_sorted ++ [m1])
              rw [p1s, p2s]
              apply insertionSort_eq_of_perm
              have q1 : (List.insertionSort (· ≤ ·) (g.marks_sorted ++ [m1]) ++ [m2]).Perm
                  (g.marks_sorted ++ [m1] ++ [m2]) :=
                (List.perm_insertionSort _ _).append_right [m2]
              have q2 : (List.insertionSort (· ≤ ·) (g.marks_sorted ++ [m2]) ++ [m1]).Perm
                  (g.marks_sorted ++ [m2] ++ [m1]) :=
                (List.perm_insertionSort _ _).append_right [m1]
              refine q1.trans (List.Perm.trans ?_ q2.symm)
              rw [List.append_assoc, List.append_assoc]
              exact List.Perm.append_left g.marks_sorted (List.Perm.swap m2 m1 [])
        · have hc2' : is_combining_mark m2 = false := by
            revert hc2; cases is_combining_mark m2 <;> simp
          have hflags : (g.AddMark m1).is_valid = true := by
            by_cases hm1 : m1 ∈ g.marks
            · rw [addMark_dup hv he hc1 hm1]; exact hv
            · rw [addMark_push hv he hc1 hm1]; exact hv
          rw [addMark_bad hv hc2', addMark_bad hflags hc2',
              addMark_invalid (invalidate_invalid g)]
          rw [invalidate_const (g.AddMark m1) g]
          exact graphemeEqOp_refl _
      · have hc1' : is_combining_mark m1 = false := by
          revert hc1; cases is_combining_mark m1 <;> simp
        by_cases hc2 : is_combining_mark m2 = true
        · have hflags : (g.AddMark m2).is_valid = true := by
            by_cases hm2 : m2 ∈ g.marks
            · rw [addMark_dup hv he hc2 hm2]; exact hv
            · rw [addMark_push hv he hc2 hm2]; exact hv
          rw [addMark_bad hv hc1', addMark_bad hflags hc1',
              addMark_invalid (invalidate_invalid g)]
          rw [invalidate_const (g.AddMark m2) g]
          exact graphemeEqOp_refl _
        · have hc2' : is_combining_mark m2 = false := by
            revert hc2; cases is_combining_mark m2 <;> simp
          rw [addMark_bad hv hc1', addMark_bad hv hc2',
              addMark_invalid (invalidate_invalid g), addMark_invalid (invalidate_invalid g)]
          exact graphemeEqOp_refl _

lemma addMarks_perm {l1 l2 : List Nat} (h : l1.Perm l2) :
    ∀ g : Grapheme, GraphemeWf g →
      GraphemeEqOp (g.addMarks l1) (g.addMarks l2) := by
  induction h with
  | nil => intro g hw; exact graphemeEqOp_refl _
  | cons x p ih =>
    intro g hw
    exact ih (g.AddMark x) (wf_addMark hw x)
  | swap x y l =>
    intro g hw
    exact addMarks_congr (wf_addMark (wf_addMark hw y) x)
      (wf_addMark (wf_addMark hw x) y) (addMark_swap g y x) l
  | trans p1 p2 ih1 ih2 =>
    intro g hw
    exact graphemeEqOp_trans (ih1 g hw) (ih2 g hw)

/-- Claim C5 (confirmed): grapheme equality (`operator==`) is
insensitive to the order in which marks are added — swapping two
`AddMark` calls yields an equal grapheme, and more generally any
permutation of the list of added marks yields an equal grapheme. -/
theorem claim_C5 (base m1 m2 : Nat) (l1 l2 : List Nat) :
    Grapheme.eqOp (((Grapheme.ofCp base).AddMark m1).AddMark m2)
      (((Grapheme.ofCp base).AddMark m2).AddMark m1) = true ∧
    (l1.Perm l2 →
      Grapheme.eqOp ((Grapheme.ofCp base).addMarks l1)
        ((Grapheme.ofCp base).addMarks l2) = true) := by
  constructor
  · exact (eqOp_iff _ _).2 (addMark_swap (Grapheme.ofCp base) m1 m2)
  · intro h
    exact (eqOp_iff _ _).2 (addMarks_perm h (Grapheme.ofCp base) (wf_ofCp base))

theorem claim_C5_witness :
    Grapheme.eqOp (((Grapheme.ofCp 0x41).AddMark 0x300).AddMark 0x301)
      (((Grapheme.ofCp 0x41).AddMark 0x301).AddMark 0x300) = true ∧
    Grapheme.eqOp ((Grapheme.ofCp 0x41).addMarks [0x300, 0x301, 0x20D0])
      ((Grapheme.ofCp 0x41).addMarks [0x301, 0x20D0, 0x300]) = true := by
  have h := claim_C5 0x41 0x300 0x301 [0x300, 0x301, 0x20D0] [0x301, 0x20D0, 0x300]
  exact ⟨h.1, h.2 (by decide)⟩

/-!
Termination of `Grapheme::Decompose` on acyclic rule tables (claim C7).
The loop follows the base chain `c → rules[c].base`; under acyclicity a
chain can never revisit a code point, so by pigeonhole over the table's
key set it leaves the table's domain after finitely many steps.  A
mid-loop invalidation (a rule carrying a bad mark) resets the base to
the 0x3F sentinel once, after which the plain chain is followed again.
-/

lemma iterStep_add (rules : DecompRules) (a b c : Nat) :
    iterStep rules (a + b) c = (iterStep rules a c).bind (iterStep rules b) := by
  induction a generalizing c with
  | zero => simp [iterStep]
  | succ a ih =>
    rw [show a + 1 + b = (a + b) + 1 by omega]
    show (ruleStep rules c).bind (iterStep rules (a + b)) =
      ((ruleStep rules c).bind (iterStep rules a)).bind (iterStep rules b)
    cases ruleStep rules c with
    | none => rfl
    | some x => simp [ih]

lemma iterStep_succ_right (rules : DecompRules) (n c : Nat) :
    iterStep rules (n + 1) c = (iterStep rules n c).bind (ruleStep rules) := by
  rw [iterStep_add rules n 1]
  cases iterStep rules n c with
  | none => rfl
  | some x =>
    show iterStep rules 1 x = ruleStep rules x
    cases h : ruleStep rules x with
    | none => simp [iterStep, h]
    | some y => simp [iterStep, h]

lemma lookup_some_mem_keys (rules : DecompRules) (c : Nat) (r : Grapheme)
    (h : rules.lookup c = some r) : c ∈ rules.map Prod.fst := by
  induction rules with
  | nil => simp [List.lookup] at h
  | cons p rest ih =>
    by_cases hc : c = p.1
    · simp [hc]
    · have hb : (c == p.1) = false := by
        simp only [beq_eq_false_iff_ne]
        exact hc
      rw [List.lookup] at h
      rw [hb] at h
      simp only [List.map_cons, List.mem_cons]
      exact Or.inr (ih h)

lemma ruleStep_some_mem_keys (rules : DecompRules) (c c' : Nat)
    (h : ruleStep rules c = some c') : c ∈ rules.map Prod.fst := by
  unfold ruleStep lookupRule at h
  cases hl : rules.lookup c with
  | none => rw [hl] at h; simp at h
  | some r => exact lookup_some_mem_keys rules c r hl

lemma chain_exits (rules : DecompRules) (hac : AcyclicRules rules) (c : Nat) :
    ∃ n c', iterStep rules n c = some c' ∧ ruleStep rules c' = none := by
  by_contra hno
  have hno' : ∀ n c', iterStep rules n c = some c' → ruleStep rules c' ≠ none := by
    intro n c' hits hrs
    exact hno ⟨n, c', hits, hrs⟩
  have alive : ∀ n, ∃ cn, iterStep rules n c = some cn ∧ ruleStep rules cn ≠ none := by
    intro n
    induction n with
    | zero => exact ⟨c, rfl, hno' 0 c rfl⟩
    | succ n ih =>
      obtain ⟨cn, hcn, hstep⟩ := ih
      obtain ⟨c', hc'⟩ := Option.ne_none_iff_exists'.1 hstep
      have hits : iterStep rules (n + 1) c = some c' := by
        rw [iterStep_succ_right, hcn]
        simp [hc']
      exact ⟨c', hits, hno' (n + 1) c' hits⟩
  have hmap : ∀ n ∈ Finset.range ((rules.map Prod.fst).length + 1),
      (iterStep rules n c).getD 0 ∈ (rules.map Prod.fst).toFinset := by
    intro n _
    obtain ⟨cn, hcn, hstep⟩ := alive n
    rw [hcn]
    obtain ⟨c', hc'⟩ := Option.ne_none_iff_exists'.1 hstep
    exact List.mem_toFinset.2 (ruleStep_some_mem_keys rules cn c' hc')
  have hinj : Set.InjOn (fun n => (iterStep rules n c).getD 0)
      (Finset.range ((rules.map Prod.fst).length + 1)) := by
    intro i _ j _ hij0
    have hij : (iterStep rules i c).getD 0 = (iterStep rules j c).getD 0 := hij0
    by_contra hne
    rcases Nat.lt_or_ge i j with hlt | hge
    · obtain ⟨ci, hci, _⟩ := alive i
      obtain ⟨cj, hcj, _⟩ := alive j
      rw [hci, hcj] at hij
      simp only [Option.getD_some] at hij
      have hchain : iterStep rules (i + (j - i)) c = some cj := by
        rw [show i + (j - i) = j by omega]
        exact hcj
      rw [iterStep_add, hci] at hchain
      rw [← hij] at hchain
      exact hac ci (j - i) (by omega) hchain
    · rcases Nat.lt_or_ge j i with hlt' | hge'
      · obtain ⟨ci, hci, _⟩ := alive i
        obtain ⟨cj, hcj, _⟩ := alive j
        rw [hci, hcj] at hij
        simp only [Option.getD_some] at hij
        have hchain : iterStep rules (j + (i - j)) c = some ci := by
          rw [show j + (i - j) = i by omega]
          exact hci
        rw [iterStep_add, hcj] at hchain
        rw [hij] at hchain
        exact hac cj (i - j) (by omega) hchain
      · exact hne (by omega)
  have hcard := Finset.card_le_card_of_injOn _ hmap hinj
  rw [Finset.card_range] at hcard
  have := List.toFinset_card_le (rules.map Prod.fst)
  omega

/-- The canonical invalidated grapheme (the value `Invalidate` always
produces). -/
def invalidG : Grapheme :=
  { code_point := unknown_character, marks := [], marks_sorted := [],
    is_empty := false, is_valid := false }

lemma invalidate_eq_invalidG (g : Grapheme) : g.Invalidate = invalidG := rfl

lemma addMarks_invalid_eq {g : Grapheme} (h : g.is_valid = false) (l : List Nat) :
    g.addMarks l = g := by
  induction l with
  | nil => rfl
  | cons x xs ih =>
    show ((g.AddMark x).addMarks xs) = g
    rw [addMark_invalid h]
    exact ih

lemma addMark_invalid_fields {g : Grapheme} {m : Nat}
    (h : (g.AddMark m).is_valid = true) :
    g.is_valid = true ∧ (g.AddMark m).code_point = g.code_point ∧
      (g.AddMark m).is_empty = g.is_empty := by
  unfold Grapheme.AddMark at h ⊢
  split_ifs at h ⊢ with h1 h2 h3
  · exact absurd h (by rw [h1]; simp)
  · exact absurd h (by rw [invalidate_eq_invalidG]; simp [invalidG])
  · exact ⟨h, rfl, rfl⟩
  · refine ⟨?_, rfl, rfl⟩
    revert h1
    cases g.is_valid <;> simp

lemma addMarks_valid_fields {l : List Nat} : ∀ {g : Grapheme},
    (g.addMarks l).is_valid = true →
    (g.addMarks l).code_point = g.code_point ∧
      (g.addMarks l).is_empty = g.is_empty := by
  induction l with
  | nil => intro g _; exact ⟨rfl, rfl⟩
  | cons x xs ih =>
    intro g h
    have hstep : ((g.AddMark x).addMarks xs).is_valid = true := h
    have hvx : (g.AddMark x).is_valid = true := by
      by_cases hv : (g.AddMark x).is_valid = true
      · exact hv
      · have hv' : (g.AddMark x).is_valid = false := by
          revert hv; cases (g.AddMark x).is_valid <;> simp
        have h' := hstep
        rw [addMarks_invalid_eq hv'] at h'
        exact absurd h' (by rw [hv']; simp)
    obtain ⟨hcp, hemp⟩ := ih hstep
    obtain ⟨_, hcp', hemp'⟩ := addMark_invalid_fields (g := g) (m := x) hvx
    exact ⟨hcp.trans hcp', hemp.trans hemp'⟩

lemma addMark_invalidated {g : Grapheme} {m : Nat} (hv : g.is_valid = true)
    (h : (g.AddMark m).is_valid = false) : g.AddMark m = invalidG := by
  unfold Grapheme.AddMark at h ⊢
  split_ifs at h ⊢ with h1 h2 h3
  · exact absurd hv (by rw [h1]; simp)
  · exact invalidate_eq_invalidG g
  · exact absurd h (by rw [hv]; simp)
  · exact absurd h (by rw [hv]; simp)

lemma addMarks_invalidated {l : List Nat} : ∀ {g : Grapheme},
    g.is_valid = true → (g.addMarks l).is_valid = false →
    g.addMarks l = invalidG := by
  induction l with
  | nil =>
    intro g hv h
    exact absurd hv (by rw [show g.addMarks [] = g from rfl] at h; rw [h]; simp)
  | cons x xs ih =>
    intro g hv h
    have hrec : (g.addMarks (x :: xs)) = (g.AddMark x).addMarks xs := rfl
    by_cases hvx : (g.AddMark x).is_valid = true
    · rw [hrec]
      exact ih hvx (hrec ▸ h)
    · have hvx' : (g.AddMark x).is_valid = false := by
        revert hvx; cases (g.AddMark x).is_valid <;> simp
      rw [hrec, addMarks_invalid_eq hvx']
      exact addMark_invalidated hv hvx'

lemma applyRule_invalid {g : Grapheme} (h : g.is_valid = false) (r : Grapheme) :
    g.applyRule r = { g with code_point := r.code_point } := by
  unfold Grapheme.applyRule
  exact addMarks_invalid_eq (g := { g with code_point := r.code_point }) h r.marks

lemma applyRule_valid_cases {g : Grapheme} (hv : g.is_valid = true) (r : Grapheme) :
    ((g.applyRule r).is_valid = true ∧ (g.applyRule r).code_point = r.code_point ∧
      (g.applyRule r).is_empty = g.is_empty) ∨
    g.applyRule r = invalidG := by
  by_cases hres : (g.applyRule r).is_valid = true
  · left
    obtain ⟨hcp, hemp⟩ := addMarks_valid_fields (l := r.marks) hres
    exact ⟨hres, hcp, hemp⟩
  · right
    have hres' : (g.applyRule r).is_valid = false := by
      revert hres; cases (g.applyRule r).is_valid <;> simp
    exact addMarks_invalidated hv hres'

lemma decomposeGo_mono (rules : DecompRules) :
    ∀ f (g r : Grapheme), decomposeGo rules f g = some r →
      ∀ k, decomposeGo rules (f + k) g = some r := by
  intro f
  induction f with
  | zero =>
    intro g r h k
    cases hl : lookupRule rules g.code_point with
    | none =>
      rw [decomposeGo, hl] at h ⊢
      exact h
    | some rule => rw [decomposeGo, hl] at h; exact absurd h (by simp)
  | succ f ih =>
    intro g r h k
    cases hl : lookupRule rules g.code_point with
    | none =>
      rw [decomposeGo, hl] at h ⊢
      exact h
    | some rule =>
      rw [decomposeGo, hl] at h
      rw [show f + 1 + k = (f + k) + 1 by omega, decomposeGo, hl]
      exact ih (g.applyRule rule) r h k

lemma decomposeGo_exit (rules : DecompRules) :
    ∀ f (g r : Grapheme), decomposeGo rules f g = some r →
      lookupRule rules r.code_point = none := by
  intro f
  induction f with
  | zero =>
    intro g r h
    cases hl : lookupRule rules g.code_point with
    | none =>
      rw [decomposeGo, hl] at h
      obtain rfl : g = r := Option.some.inj h
      exact hl
    | some rule => rw [decomposeGo, hl] at h; exact absurd h (by simp)
  | succ f ih =>
    intro g r h
    cases hl : lookupRule rules g.code_point with
    | none =>
      rw [decomposeGo, hl] at h
      obtain rfl : g = r := Option.some.inj h
      exact hl
    | some rule =>
      rw [decomposeGo, hl] at h
      exact ih (g.applyRule rule) r h

lemma ruleStep_none_iff (rules : DecompRules) (c : Nat) :
    ruleStep rules c = none ↔ lookupRule rules c = none := by
  unfold ruleStep
  cases lookupRule rules c <;> simp

lemma decomposeGo_exits_invalid (rules : DecompRules) :
    ∀ n (g : Grapheme), g.is_valid = false →
      (∃ c', iterStep rules n g.code_point = some c' ∧ ruleStep rules c' = none) →
      ∃ r, decomposeGo rules n g = some r := by
  intro n
  induction n with
  | zero =>
    intro g _ hch
    obtain ⟨c', hc', hex⟩ := hch
    obtain rfl : g.code_point = c' := Option.some.inj hc'
    rw [ruleStep_none_iff] at hex
    exact ⟨g, by rw [decomposeGo, hex]⟩
  | succ n ih =>
    intro g hv hch
    obtain ⟨c', hc', hex⟩ := hch
    cases hl : lookupRule rules g.code_point with
    | none => exact ⟨g, by rw [decomposeGo, hl]⟩
    | some rule =>
      have hrs : ruleStep rules g.code_point = some rule.code_point := by
        unfold ruleStep
        rw [hl]
        rfl
      have hch' : iterStep rules n rule.code_point = some c' := by
        rw [iterStep, hrs] at hc'
        exact hc'
      have happ := applyRule_invalid hv rule
      have hv' : (g.applyRule rule).is_valid = false := by rw [happ]; exact hv
      have hcp' : (g.applyRule rule).code_point = rule.code_point := by rw [happ]
      obtain ⟨r, hr⟩ := ih (g.applyRule rule) hv' ⟨c', hcp' ▸ hch', hex⟩
      exact ⟨r, by rw [decomposeGo, hl]; exact hr⟩

lemma decomposeGo_exits_valid (rules : DecompRules) :
    ∀ n m (g : Grapheme), g.is_valid = true →
      (∃ c', iterStep rules n g.code_point = some c' ∧ ruleStep rules c' = none) →
      (∃ c'', iterStep rules m unknown_character = some c'' ∧ ruleStep rules c'' = none) →
      ∃ r, decomposeGo rules (n + m) g = some r := by
  intro n
  induction n with
  | zero =>
    intro m g _ hch _
    obtain ⟨c', hc', hex⟩ := hch
    obtain rfl : g.code_point = c' := Option.some.inj hc'
    rw [ruleStep_none_iff] at hex
    exact ⟨g, by rw [decomposeGo, hex]⟩
  | succ n ih =>
    intro m g hv hch hch0
    obtain ⟨c', hc', hex⟩ := hch
    cases hl : lookupRule rules g.code_point with
    | none => exact ⟨g, by rw [decomposeGo, hl]⟩
    | some rule =>
      have hrs : ruleStep rules g.code_point = some rule.code_point := by
        unfold ruleStep
        rw [hl]
        rfl
      have hch' : iterStep rules n rule.code_point = some c' := by
        rw [iterStep, hrs] at hc'
        exact hc'
      rcases applyRule_valid_cases hv rule with ⟨hv', hcp', _⟩ | hinv
      · obtain ⟨r, hr⟩ := ih m (g.applyRule rule) hv' ⟨c', hcp' ▸ hch', hex⟩ hch0
        refine ⟨r, ?_⟩
        rw [show n + 1 + m = (n + m) + 1 by omega, decomposeGo, hl]
        exact hr
      · have hv' : (g.applyRule rule).is_valid = false := by
          rw [hinv]
          rfl
        have hcp' : (g.applyRule rule).code_point = unknown_character := by
          rw [hinv]
          rfl
        obtain ⟨r, hr⟩ := decomposeGo_exits_invalid rules m (g.applyRule rule) hv'
          (by rw [hcp']; exact hch0)
        refine ⟨r, ?_⟩
        rw [show n + 1 + m = (n + m) + 1 by omega, decomposeGo, hl]
        rw [show n + m = m + n by omega]
        exact decomposeGo_mono rules m (g.applyRule rule) r hr n

lemma acyclic_nil : AcyclicRules [] := by
  intro c n hn
  cases n with
  | zero => omega
  | succ k => simp [iterStep, ruleStep, lookupRule, List.lookup]

/-- Claim C7 (confirmed): for every acyclic decomposition-rule table,
`Grapheme::Decompose` terminates on every grapheme (the fuelled model
succeeds for some finite fuel), and the result is a fixed point:
running `Decompose` again on the result, with any fuel, returns it
unchanged. -/
theorem claim_C7 (rules : DecompRules) (hac : AcyclicRules rules) :
    (∀ g, ∃ fuel, (Grapheme.DecomposeFuel rules fuel g).isSome) ∧
    (∀ (g g' : Grapheme) (fuel fuel' : Nat),
      Grapheme.DecomposeFuel rules fuel g = some g' →
      Grapheme.DecomposeFuel rules fuel' g' = some g') := by
  constructor
  · intro g
    by_cases hie : g.is_valid = false ∨ g.is_empty = true
    · exact ⟨0, by simp [Grapheme.DecomposeFuel, hie]⟩
    · have hv : g.is_valid = true := by
        have h1 : ¬(g.is_valid = false) := fun h => hie (Or.inl h)
        revert h1
        cases g.is_valid <;> simp
      obtain ⟨n, c', hc', hex⟩ := chain_exits rules hac g.code_point
      obtain ⟨m, c'', hc'', hex2⟩ := chain_exits rules hac unknown_character
      obtain ⟨r, hr⟩ := decomposeGo_exits_valid rules n m g hv ⟨c', hc', hex⟩
        ⟨c'', hc'', hex2⟩
      exact ⟨n + m, by simp [Grapheme.DecomposeFuel, hie, hr]⟩
  · intro g g' fuel fuel' h
    unfold Grapheme.DecomposeFuel at h
    by_cases hie : g.is_valid = false ∨ g.is_empty = true
    · rw [if_pos hie] at h
      obtain rfl : g = g' := Option.some.inj h
      unfold Grapheme.DecomposeFuel
      rw [if_pos hie]
    · rw [if_neg hie] at h
      have hexit := decomposeGo_exit rules fuel g g' h
      unfold Grapheme.DecomposeFuel
      by_cases hie' : g'.is_valid = false ∨ g'.is_empty = true
      · rw [if_pos hie']
      · rw [if_neg hie']
        rw [decomposeGo, hexit]

theorem claim_C7_witness :
    (∃ fuel, (Grapheme.DecomposeFuel [] fuel (Grapheme.ofCp 0x41)).isSome) ∧
    Grapheme.DecomposeFuel [] 7 (Grapheme.ofCp 0x41) = some (Grapheme.ofCp 0x41) := by
  have h := claim_C7 [] acyclic_nil
  exact ⟨h.1 (Grapheme.ofCp 0x41),
         h.2 (Grapheme.ofCp 0x41) (Grapheme.ofCp 0x41) 3 7 (by decide)⟩
